import Mathlib

/-!
# Atlas-CMS-Vue: page resolver, interface resolver and package discovery

A shallow embedding of

* `src/resources/admin/js/page-resolver.js`
* `src/resources/admin/Pages/Admin/Modules/Default/components/interfaces/index.js`
* `src/vite-utils.mjs`

JavaScript strings are Lean strings; a JavaScript object with string keys is the
list of its own properties in insertion order; a promise is the `Except` value
it settles to.
-/

set_option autoImplicit false

namespace Atlas

/-! ## JavaScript objects and strings -/

/-- Own enumerable string-keyed properties of a JavaScript object, in insertion
order.  The keys used in this development (glob paths ending in `.vue`, scoped
package names, alias names) are never array-index keys, so the property order
of the object is its insertion order. -/
abbrev JsObject (α : Type) := List (String × α)

/-- Own-property read `o[k]`; `none` stands for `undefined`. -/
def objGet {α : Type} (o : JsObject α) (k : String) : Option α :=
  match o with
  | [] => none
  | (k', v) :: rest => if k' = k then some v else objGet rest k

/-- Property write `o[k] = v`: an existing key keeps its position and takes the
new value, a new key is appended. -/
def objSet {α : Type} (o : JsObject α) (k : String) (v : α) : JsObject α :=
  match o with
  | [] => [(k, v)]
  | (k', v') :: rest => if k' = k then (k', v) :: rest else (k', v') :: objSet rest k v

/-- Object spread `{ ...target, ...src }`, copying the properties of `src` one
by one, in order, onto `target`. -/
def objSpread {α : Type} (target src : JsObject α) : JsObject α :=
  src.foldl (fun acc e => objSet acc e.1 e.2) target

/-- The list `Object.keys(o)`. -/
def objectKeys {α : Type} (o : JsObject α) : List String :=
  o.map Prod.fst

/-- The string `s.replace(/\\/g, '/')`: every backslash becomes a slash. -/
def replaceBackslashes (s : String) : String :=
  ⟨s.data.map (fun c => if c = '\\' then '/' else c)⟩

/-- The test `s.endsWith(suffix)`. -/
def endsWith (s suffix : String) : Bool :=
  suffix.data.isSuffixOf s.data

/-- The test `s.startsWith(pre)`. -/
def startsWith (s pre : String) : Bool :=
  pre.data.isPrefixOf s.data

/-- Truthiness of a JavaScript string: only the empty string is falsy. -/
def truthyString (s : String) : Bool :=
  !s.data.isEmpty

/-! ## Page resolver (`page-resolver.js`) -/

/-- The five glob manifests of `page-resolver.js`; `L` is the type of the lazy
loaders that `import.meta.glob` produces (functions, hence truthy values). -/
structure Manifests (L : Type) where
  cmsPages : JsObject L
  localVuePackagePages : JsObject L
  localAtlasPackagePages : JsObject L
  npmVuePackagePages : JsObject L
  vendorPackagePages : JsObject L

/-- The constant `localPackagePages = { ...localVuePackagePages, ...localAtlasPackagePages }`. -/
def localPackagePages {L : Type} (m : Manifests L) : JsObject L :=
  objSpread (objSpread [] m.localVuePackagePages) m.localAtlasPackagePages

/-- The constant
`allPackagePages = { ...localPackagePages, ...npmVuePackagePages, ...vendorPackagePages }`. -/
def allPackagePages {L : Type} (m : Manifests L) : JsObject L :=
  objSpread (objSpread (objSpread [] (localPackagePages m)) m.npmVuePackagePages)
    m.vendorPackagePages

/-- The callback of `packageKeys.find` in `findMatchingPackagePage`. -/
def keyMatches (pageName key : String) : Bool :=
  endsWith (replaceBackslashes key) ("/" ++ replaceBackslashes pageName ++ ".vue")

/-- The function `findMatchingPackagePage(packageKeys, pageName)`; `none` is `null`.
The trailing `|| null` turns a falsy found key into `null` as well. -/
def findMatchingPackagePage (packageKeys : List String) (pageName : String) :
    Option String :=
  match packageKeys.find? (keyMatches pageName) with
  | some key => if truthyString key then some key else none
  | none => none

/-- The module namespace object a dynamic `import()` resolves to; `default` is
`none` when the module has no default export (reading `module.default` then
gives `undefined`). -/
structure EsModule (X : Type) where
  default : Option X

/-- Why the promise of `resolvePage` rejects: with the `Error` the function
itself throws, or with the reason of the awaited loader promise. -/
inductive Rejection (E : Type) where
  | thrown (message : String)
  | loaderRejected (reason : E)

/-- Which manifest a loader was taken from. -/
inductive PageSource where
  | cmsPages
  | allPackagePages
deriving DecidableEq, Repr

/-- One invocation `loader()` made by `resolvePage`. -/
structure LoaderCall where
  source : PageSource
  key : String
deriving DecidableEq, Repr

/-- One `console` call of `resolvePage`: the method, the text and the keys
passed as second argument. -/
structure PageLog where
  method : String
  text : String
  keys : List String
deriving DecidableEq, Repr

/-- Everything observable of one call of `resolvePage`. -/
structure PageOutcome (E X : Type) where
  calls : List LoaderCall
  logs : List PageLog
  result : Except (Rejection E) (Option X)

/-- The statements `const module = await loader(); return module.default;`. -/
def awaitDefault {L E X : Type} (load : L → Except E (EsModule X)) (loader : L) :
    Except (Rejection E) (Option X) :=
  match load loader with
  | .ok module => .ok module.default
  | .error reason => .error (.loaderRejected reason)

/-- The diagnostics printed under `import.meta.env.DEV`. -/
def devDiagnostics {L : Type} (m : Manifests L) (name : String) : List PageLog :=
  [ { method := "error", text := "Page not found: " ++ name, keys := [] },
    { method := "log", text := "Available CMS pages:", keys := (objectKeys m.cmsPages).take 5 },
    { method := "log", text := "Available package pages:",
      keys := (objectKeys (allPackagePages m)).take 10 } ]

/-- The function `resolvePage(name)`.  `dev` is `import.meta.env.DEV`, `load`
gives what the promise returned by a loader settles to.  The test
`if (allPackagePages)` always holds, the constant being an object. -/
def resolvePage {L E X : Type} (dev : Bool) (m : Manifests L)
    (load : L → Except E (EsModule X)) (name : String) : PageOutcome E X :=
  let hostKey := "../Pages/" ++ name ++ ".vue"
  match objGet m.cmsPages hostKey with
  | some loader =>
    { calls := [⟨.cmsPages, hostKey⟩], logs := [], result := awaitDefault load loader }
  | none =>
    let packageKeys := objectKeys (allPackagePages m)
    let matchingKey :=
      if packageKeys.length > 0 then findMatchingPackagePage packageKeys name else none
    let found := matchingKey.bind (fun key => (objGet (allPackagePages m) key).map (Prod.mk key))
    match found with
    | some (key, loader) =>
      { calls := [⟨.allPackagePages, key⟩], logs := [], result := awaitDefault load loader }
    | none =>
      { calls := [],
        logs := if dev then devDiagnostics m name else [],
        result := .error (.thrown ("Page not found: " ++ name)) }

/-- The spec's precedence order of the plug-in entries: local `*-Vue` packages,
local `Atlas*` packages, npm packages, vendor packages, each source in its own
order. -/
def entriesInPrecedenceOrder {L : Type} (m : Manifests L) : JsObject L :=
  m.localVuePackagePages ++ m.localAtlasPackagePages ++ m.npmVuePackagePages ++
    m.vendorPackagePages

/-- The name of the directory a key of a local glob names, the part between the
leading `../../../../` and the next slash. -/
def localPackageDir (key : String) : List Char :=
  (key.data.drop 12).takeWhile (fun c => c != '/')

/-- The shape a key of the glob `../../../../*-Vue/resources/admin/Pages/**/*.vue`
has: four levels up, then a directory whose name ends in `-Vue`. -/
def matchesLocalVueGlob (key : String) : Bool :=
  startsWith key "../../../../" && "-Vue".data.isSuffixOf (localPackageDir key)

/-- The shape a key of the glob `../../../../Atlas*/resources/admin/Pages/**/*.vue`
has: four levels up, then a directory whose name starts with `Atlas`. -/
def matchesLocalAtlasGlob (key : String) : Bool :=
  startsWith key "../../../../" && "Atlas".data.isPrefixOf (localPackageDir key)

/-- The shape a key of the glob
`../../../../../node_modules/@devcats/*-vue/resources/admin/Pages/**/*.vue` has. -/
def matchesNpmGlob (key : String) : Bool :=
  startsWith key "../../../../../node_modules/@devcats/"

/-- The shape a key of the glob
`../../../../../vendor/*/*/resources/admin/Pages/**/*.vue` has. -/
def matchesVendorGlob (key : String) : Bool :=
  startsWith key "../../../../../vendor/"

/-- Manifests as `import.meta.glob` builds them in `page-resolver.js`: every key
of a plug-in source has the shape of the glob pattern of that source, and the
npm and vendor sources, being objects, hold each key once. -/
structure FromGlobs {L : Type} (m : Manifests L) : Prop where
  localVue : ∀ key ∈ objectKeys m.localVuePackagePages, matchesLocalVueGlob key = true
  localAtlas : ∀ key ∈ objectKeys m.localAtlasPackagePages, matchesLocalAtlasGlob key = true
  npm : ∀ key ∈ objectKeys m.npmVuePackagePages, matchesNpmGlob key = true
  vendor : ∀ key ∈ objectKeys m.vendorPackagePages, matchesVendorGlob key = true
  npmKeys : (objectKeys m.npmVuePackagePages).Nodup
  vendorKeys : (objectKeys m.vendorPackagePages).Nodup

/-- The lookup that lets the source declared first win: the local packages, then
the npm packages, then the vendor packages. -/
def firstDeclaredLoader {L : Type} (m : Manifests L) (key : String) : Option L :=
  match objGet (localPackagePages m) key with
  | some loader => some loader
  | none =>
    match objGet m.npmVuePackagePages key with
    | some loader => some loader
    | none => objGet m.vendorPackagePages key

/-! ## Interface resolver (`components/interfaces/index.js`) -/

/-- The single-file components imported at the top of `index.js`. -/
inductive Component where
  | TextInterface
  | TextareaInterface
  | WysiwygInterface
  | FileInterface
  | DateInterface
  | SelectInterface
  | CheckboxInterface
  | ChildrenInterface
  | CategoriesInterface
  | ProductAttributesInterface
  | UnknownInterface
deriving DecidableEq, Repr

/-- The object literal `interfaceComponents`. -/
def interfaceComponents : JsObject Component :=
  [ ("text", .TextInterface),
    ("textarea", .TextareaInterface),
    ("wysiwyg", .WysiwygInterface),
    ("file", .FileInterface),
    ("date", .DateInterface),
    ("datetime", .DateInterface),
    ("datetime-local", .DateInterface),
    ("select", .SelectInterface),
    ("checkbox", .CheckboxInterface),
    ("children", .ChildrenInterface),
    ("categories", .CategoriesInterface),
    ("product_attributes", .ProductAttributesInterface) ]

/-- The property names an object literal inherits from `Object.prototype`
(ECMAScript 2023, section 20.1.3 and annex B.2.2); each reads as a function,
and `__proto__` as the prototype object itself, so each is truthy. -/
def objectPrototypeKeys : List String :=
  [ "constructor", "hasOwnProperty", "isPrototypeOf", "propertyIsEnumerable",
    "toLocaleString", "toString", "valueOf", "__proto__",
    "__defineGetter__", "__defineSetter__", "__lookupGetter__", "__lookupSetter__" ]

/-- What `resolveInterfaceComponent` can return. -/
inductive InterfaceValue where
  | component (c : Component)
  | objectPrototypeMember (name : String)
  | asyncComponent (interfacePath : String)
deriving DecidableEq, Repr

/-- The property read `interfaceComponents[type]`: an own property of the
literal, else a property found on its prototype `Object.prototype`, else
`undefined` (`none`).  Every value it finds is truthy. -/
def readInterfaceComponents (type : String) : Option InterfaceValue :=
  match objGet interfaceComponents type with
  | some c => some (.component c)
  | none =>
    if objectPrototypeKeys.contains type then some (.objectPrototypeMember type) else none

/-- JSON-shaped JavaScript values, for the `config` argument.  Numbers are
integers here; the resolver only ever tests a number for truthiness. -/
inductive JsValue where
  | undefined
  | null
  | boolean (b : Bool)
  | number (n : Int)
  | string (s : String)
  | array (items : List JsValue)
  | object (props : List (String × JsValue))

/-- JavaScript truthiness. -/
def truthy : JsValue → Bool
  | .undefined => false
  | .null => false
  | .boolean b => b
  | .number n => n != 0
  | .string s => truthyString s
  | .array _ => true
  | .object _ => true

/-- The read `config?.interface_path`. -/
def interfacePathOf : JsValue → JsValue
  | .object props => (objGet props "interface_path").getD .undefined
  | _ => .undefined

mutual
/-- Whether converting a value to a string, as a template literal does, throws
a `TypeError`.  An object with an own property `toString` has no callable
`toString` (a JSON value is never a function) and the inherited `valueOf`
returns the object itself, so neither gives a primitive; an array joins the
conversions of its elements; every other value converts. -/
def toStringThrows : JsValue → Bool
  | .object props => (objGet props "toString").isSome
  | .array items => anyToStringThrows items
  | _ => false
/-- Whether the conversion of some element of an array throws. -/
def anyToStringThrows : List JsValue → Bool
  | [] => false
  | v :: vs => toStringThrows v || anyToStringThrows vs
end

/-- One `console` call of the interface resolver: the method and the text of
its first argument; the value interpolated into the text of the `catch` handler
is left out of the record. -/
structure InterfaceLog where
  method : String
  text : String
deriving DecidableEq, Repr

/-- The template literal
`../../../../../../Custom/Interfaces/${customPath}.vue` with
`customPath = config.interface_path.replace(/\\/g, '/')`. -/
def customInterfaceKey (interface_path : String) : String :=
  "../../../../../../Custom/Interfaces/" ++ replaceBackslashes interface_path ++ ".vue"

/-- The body of the `try` block of `resolveInterfaceComponent`.  Calling
`.replace` on a value that is not a string throws a `TypeError`.  The manifest
keys all end in `.vue`, so the read `customInterfaces[interfacePath]` is an
own-property read, and its values are loader functions, hence truthy. -/
def resolveCustomTry {L : Type} (customInterfaces : JsObject L) (config : JsValue) :
    Except String (InterfaceValue × List InterfaceLog) :=
  match interfacePathOf config with
  | .string interface_path =>
    let interfacePath := customInterfaceKey interface_path
    match objGet customInterfaces interfacePath with
    | some _ => .ok (.asyncComponent interfacePath, [])
    | none =>
      .ok (.component .UnknownInterface,
        [ ⟨"warn", "Custom interface not found: " ++ interfacePath⟩,
          ⟨"log", "Available custom interfaces:"⟩,
          ⟨"log", "Config:"⟩ ])
  | _ => .error "TypeError: config.interface_path.replace is not a function"

/-- The function `resolveInterfaceComponent(type, config)`: `.ok` carries the
returned value and the console calls made, `.error` a thrown exception.  The
`catch` handler interpolates `config.interface_path` into its first message,
which converts the value to a string and can throw in turn. -/
def resolveInterfaceComponent {L : Type} (customInterfaces : JsObject L) (type : String)
    (config : JsValue) : Except String (InterfaceValue × List InterfaceLog) :=
  match readInterfaceComponents type with
  | some value => .ok (value, [])
  | none =>
    if type = "custom" then
      if !truthy (interfacePathOf config) then
        .ok (.component .UnknownInterface,
          [⟨"warn", "Custom interface type requires interface_path in config"⟩])
      else
        match resolveCustomTry customInterfaces config with
        | .ok r => .ok r
        | .error _ =>
          if toStringThrows (interfacePathOf config) then
            .error "TypeError: Cannot convert object to primitive value"
          else
            .ok (.component .UnknownInterface,
              [ ⟨"error", "Error resolving custom interface: "⟩, ⟨"error", "Config:"⟩ ])
    else
      .ok (.component .UnknownInterface, [])

/-- What the loader given to `defineAsyncComponent` can resolve to. -/
inductive LoadedComponent (X : Type) where
  | defaultExport (x : X)
  | moduleNamespace (module : EsModule X)
  | UnknownInterface

/-- Truthiness of the value `module.default || module`; a module namespace
object and a component are objects, hence truthy. -/
def truthyLoaded {X : Type} (truthyExport : X → Bool) : LoadedComponent X → Bool
  | .defaultExport x => truthyExport x
  | .moduleNamespace _ => true
  | .UnknownInterface => true

/-- The expression `module.default || module`. -/
def defaultOrModule {X : Type} (truthyExport : X → Bool) (module : EsModule X) :
    LoadedComponent X :=
  match module.default with
  | some x => if truthyExport x then .defaultExport x else .moduleNamespace module
  | none => .moduleNamespace module

/-- The promise `customInterfaces[interfacePath]().then(...)` before `.catch`:
it rejects with the loader's reason, or with the `Error` thrown in `then`. -/
def customInterfaceThen {L E X : Type} (truthyExport : X → Bool)
    (load : L → Except E (EsModule X)) (loader : L) :
    Except (Rejection E) (LoadedComponent X) :=
  match load loader with
  | .error reason => .error (.loaderRejected reason)
  | .ok module =>
    let component := defaultOrModule truthyExport module
    if !truthyLoaded truthyExport component then
      .error (.thrown "Custom interface component does not have a default export")
    else
      .ok component

/-- The loader wrapped by `defineAsyncComponent` for the key `interfacePath`:
`() => customInterfaces[interfacePath]().then(...).catch(...)`, as the value
its promise settles to and the console calls of the `catch` handler.  Calling
a missing entry throws synchronously. -/
def customInterfaceLoader {L E X : Type} (truthyExport : X → Bool)
    (customInterfaces : JsObject L) (load : L → Except E (EsModule X))
    (interfacePath : String) : Except String (LoadedComponent X × List InterfaceLog) :=
  match objGet customInterfaces interfacePath with
  | none => .error "TypeError: customInterfaces[interfacePath] is not a function"
  | some loader =>
    match customInterfaceThen truthyExport load loader with
    | .ok component => .ok (component, [])
    | .error _ =>
      .ok (.UnknownInterface,
        [ ⟨"error", "Failed to load custom interface: " ++ interfacePath⟩,
          ⟨"error", "Config:"⟩,
          ⟨"error", "Custom path:"⟩ ])

/-! ## Package discovery (`vite-utils.mjs`) -/

/-- The test `s.includes(sub)`. -/
def includes (s sub : String) : Bool :=
  s.data.tails.any (fun t => sub.data.isPrefixOf t)

/-- First-occurrence replacement on characters, for `replaceFirst`. -/
def replaceFirstChars (pat rep : List Char) : List Char → List Char
  | [] => if pat.isEmpty then rep else []
  | c :: cs =>
    if pat.isPrefixOf (c :: cs) then rep ++ (c :: cs).drop pat.length
    else c :: replaceFirstChars pat rep cs

/-- The string `s.replace(pat, rep)` for a string pattern: the first occurrence
of `pat` is replaced. -/
def replaceFirst (s pat rep : String) : String :=
  ⟨replaceFirstChars pat.data rep.data s.data⟩

/-- The string `s.replace(/^file:/, '')`. -/
def stripFilePrefix (s : String) : String :=
  if startsWith s "file:" then ⟨s.data.drop 5⟩ else s

/-- The global replacement of `-` by `_` in `envVar`: every hyphen becomes an
underscore. -/
def replaceHyphens (s : String) : String :=
  ⟨s.data.map (fun c => if c = '-' then '_' else c)⟩

/-- What `s.toUpperCase()` gives on a string of ASCII characters: the letters `a`
to `z` are uppercased and every other character is kept. -/
def toUpperCaseAscii (s : String) : String :=
  ⟨s.data.map Char.toUpper⟩

/-- The parsed `package.json`, as far as it is read; a field is `none` when it
is missing. -/
structure PackageJson where
  dependencies : Option (JsObject String)
  devDependencies : Option (JsObject String)

/-- One item of the `resources` list of a package's `vite.config.mjs`; `file` is
`none` when the item has no string `file`. -/
structure Resource where
  type : String
  file : Option String
  context : String

/-- The object a package's `vite.config.mjs` exports (see `src/vite.config.mjs`).
`resources` is `none` when the field is missing or is no array, `aliases` is
`none` when the field is `undefined` or `null`, and an alias value is `none`
when it is no string. -/
structure PackageConfig where
  resources : Option (List Resource)
  aliases : Option (JsObject (Option String))

/-- The Node.js runtime as `vite-utils.mjs` sees it: `process.env`, `fs` and
`path`, JSON reading, dynamic import and the string built-in `toUpperCase`.
`env` gives the value of an environment variable, `none` when it is not set;
`readJson p` is `JSON.parse(readFileSync(p, 'utf-8'))`, `none` when it throws;
`importConfig p` is the value of `config.default || config` after
`await import(p)`, `none` when the import throws. -/
structure Node where
  env : String → Option String
  existsSync : String → Bool
  resolve : String → String → String
  join : String → String → String
  isAbsolute : String → Bool
  readJson : String → Option PackageJson
  importConfig : String → Option PackageConfig
  toUpperCase : String → String

/-- What the property read `process.env[envVar]` gives: the value of the
variable when it is set; else, as `process.env` inherits from
`Object.prototype`, the inherited member when `envVar` names one (a function or
object, truthy and no string); else `undefined`. -/
inductive EnvRead where
  | value (s : String)
  | inherited (name : String)
  | undefined

/-- The property read `process.env[envVar]`. -/
def readEnv (node : Node) (envVar : String) : EnvRead :=
  match node.env envVar with
  | some value => .value value
  | none => if objectPrototypeKeys.contains envVar then .inherited envVar else .undefined

/-- The message of the `Error` thrown at the end of `resolvePackage`. -/
def packageNotFoundMessage (npmPackage : String) (packagePathFromJson : Option String)
    (envVar : String) : String :=
  "\n❌ Package not found: " ++ npmPackage ++ "\n\n" ++
  "Installation options:\n" ++
  "  1. npm install " ++ npmPackage ++ "\n" ++
  "  2. Add to package.json: \"" ++ npmPackage ++ "\": \"file:./packages/" ++
    replaceFirst npmPackage "@devcats/" "" ++ "\"\n" ++
  "  3. export " ++ envVar ++ "=/path/to/package\n\n" ++
  "Expected locations:\n" ++
  "  • node_modules/" ++ npmPackage ++ "\n" ++
  (match packagePathFromJson with
   | some p => if truthyString p then "  • " ++ stripFilePrefix p ++ "\n" else ""
   | none => "")

/-- The second and third priority of `resolvePackage` and its final `throw`:
the `file:` path of `package.json`, then `node_modules`. -/
def resolveWithoutEnv (node : Node) (npmPackage : String)
    (packagePathFromJson : Option String) (envVar projectRoot : String) :
    Except String String :=
  let fromJson : Option String :=
    match packagePathFromJson with
    | some p =>
      if truthyString p && startsWith p "file:" then
        let localPath := stripFilePrefix p
        let localDevPath := node.resolve projectRoot localPath
        if node.existsSync localDevPath &&
            node.existsSync (node.join localDevPath "resources") then
          some localDevPath
        else none
      else none
    | none => none
  match fromJson with
  | some localDevPath => .ok localDevPath
  | none =>
    let nodeModulesPath := node.resolve projectRoot ("node_modules/" ++ npmPackage)
    if node.existsSync nodeModulesPath &&
        node.existsSync (node.join nodeModulesPath "resources") then
      .ok nodeModulesPath
    else
      .error (packageNotFoundMessage npmPackage packagePathFromJson envVar)

/-- The function `resolvePackage(npmPackage, packagePathFromJson, envVar, projectRoot)`;
`.error` carries the message of the thrown error.  `packagePathFromJson` is
`none` when the argument is `undefined`.  An inherited member read from
`process.env` is truthy, and `path.resolve` throws a `TypeError` on an argument
that is no string. -/
def resolvePackage (node : Node) (npmPackage : String) (packagePathFromJson : Option String)
    (envVar projectRoot : String) : Except String String :=
  match readEnv node envVar with
  | .inherited _ =>
    .error "TypeError [ERR_INVALID_ARG_TYPE]: The \"paths[1]\" argument must be of type string."
  | .value value =>
    let fromEnv : Option String :=
      if truthyString value then
        let envPath := node.resolve projectRoot value
        if node.existsSync envPath && node.existsSync (node.join envPath "resources") then
          some envPath
        else none
      else none
    match fromEnv with
    | some envPath => .ok envPath
    | none => resolveWithoutEnv node npmPackage packagePathFromJson envVar projectRoot
  | .undefined => resolveWithoutEnv node npmPackage packagePathFromJson envVar projectRoot

/-- The function `loadPackageConfig(packagePath)`; `none` is `null`. -/
def loadPackageConfig (node : Node) (packagePath : String) : Option PackageConfig :=
  let configPath := node.join packagePath "vite.config.mjs"
  if node.existsSync configPath then node.importConfig configPath else none

/-- One element of the list `getVuePackagesFromPackageJson` returns. -/
structure PackageEntry where
  name : String
  path : String
deriving DecidableEq, Repr

/-- The function `getVuePackagesFromPackageJson(projectRoot)`.  Index-like keys
of `allDeps`, which `Object.entries` would list first, fail the filter, so the
entries kept are in insertion order. -/
def getVuePackagesFromPackageJson (node : Node) (projectRoot : String) : List PackageEntry :=
  let packageJsonPath := node.join projectRoot "package.json"
  if !node.existsSync packageJsonPath then []
  else
    match node.readJson packageJsonPath with
    | none => []
    | some packageJson =>
      let allDeps := objSpread (objSpread [] (packageJson.dependencies.getD []))
        (packageJson.devDependencies.getD [])
      (allDeps.filter (fun e => startsWith e.1 "@devcats/" && includes e.1 "-vue")).map
        (fun e => { name := e.1, path := e.2 })

/-- The template literal that names the override variable of a package in
`loadAllPackages`. -/
def envVarName (node : Node) (name : String) : String :=
  node.toUpperCase (replaceHyphens (replaceFirst name "@devcats/" "")) ++ "_PATH"

/-- The value `loadAllPackages` builds and returns. -/
structure Discovery where
  inputs : List String
  aliases : JsObject String
deriving DecidableEq, Repr

/-- The assignment `aliases[aliasName] = absoluteAlias` of a string to a key of
an ordinary object: the key `__proto__` reaches the setter inherited from
`Object.prototype`, which ignores a value that is not an object; every other key
is written as an own property. -/
def objAssign (o : JsObject String) (k v : String) : JsObject String :=
  if k = "__proto__" then o else objSet o k v

/-- The loop `packageConfig.resources.forEach(...)`: every item pushes
`path.join(packagePath, resource.file)` onto `inputs`; at an item without a
string `file` the loop throws a `TypeError` and what was pushed stays.  The
result is the array and the error thrown, if any. -/
def pushResources (node : Node) (packagePath : String) :
    List Resource → List String → List String × Option String
  | [], inputs => (inputs, none)
  | resource :: rest, inputs =>
    match resource.file with
    | some file => pushResources node packagePath rest (inputs ++ [node.join packagePath file])
    | none => (inputs, some "TypeError: The \"path\" argument must be of type string.")

/-- The loop `Object.entries(packageConfig.aliases).forEach(...)`: every entry
assigns the alias, made absolute, to `aliases`; at a value that is no string
`path.isAbsolute` throws a `TypeError` and what was assigned stays. -/
def assignAliases (node : Node) (packagePath : String) :
    JsObject (Option String) → JsObject String → JsObject String × Option String
  | [], aliases => (aliases, none)
  | (aliasName, some aliasPath) :: rest, aliases =>
    assignAliases node packagePath rest
      (objAssign aliases aliasName
        (if node.isAbsolute aliasPath then aliasPath else node.join packagePath aliasPath))
  | (_, none) :: _, aliases =>
    (aliases, some "TypeError: The \"path\" argument must be of type string.")

/-- The statements of `loadAllPackages` that add the resources and aliases of one
package configuration to `inputs` and `aliases`: the state they leave and the
error they throw, if any. -/
def mergeConfig (node : Node) (packagePath : String) (config : PackageConfig)
    (acc : Discovery) : Discovery × Option String :=
  match config.resources with
  | none => (acc, some "TypeError: Cannot read properties of undefined (reading 'forEach')")
  | some resources =>
    match pushResources node packagePath resources acc.inputs with
    | (inputs, some error) => ({ acc with inputs := inputs }, some error)
    | (inputs, none) =>
      match config.aliases with
      | none =>
        ({ acc with inputs := inputs },
          some "TypeError: Cannot convert undefined or null to object")
      | some aliases =>
        match assignAliases node packagePath aliases acc.aliases with
        | (assigned, error) => ({ inputs := inputs, aliases := assigned }, error)

/-- The name of the one package whose resolution failure is rethrown. -/
def requiredPackage : String := "@devcats/atlas-cms-vue"

/-- The `try` block of the `for` loop of `loadAllPackages`: the state it leaves
and the error it throws, if any. -/
def tryPackage (node : Node) (projectRoot : String) (acc : Discovery) (pkg : PackageEntry) :
    Discovery × Option String :=
  let envVar := envVarName node pkg.name
  match resolvePackage node pkg.name (some pkg.path) envVar projectRoot with
  | .ok packagePath =>
    match loadPackageConfig node packagePath with
    | some packageConfig => mergeConfig node packagePath packageConfig acc
    | none => (acc, none)
  | .error message => (acc, some message)

/-- The body of the `for` loop of `loadAllPackages`, with its `try`/`catch`: an
error thrown in the `try` block is rethrown for the required package and
swallowed for every other one.  Console output is not recorded. -/
def loadPackage (node : Node) (projectRoot : String) (acc : Discovery) (pkg : PackageEntry) :
    Except String Discovery :=
  match tryPackage node projectRoot acc pkg with
  | (acc', none) => .ok acc'
  | (acc', some message) =>
    if pkg.name = requiredPackage then .error message else .ok acc'

/-- The `for` loop of `loadAllPackages`: a thrown error ends it. -/
def loadPackages (node : Node) (projectRoot : String) :
    List PackageEntry → Discovery → Except String Discovery
  | [], acc => .ok acc
  | pkg :: rest, acc =>
    match loadPackage node projectRoot acc pkg with
    | .ok acc' => loadPackages node projectRoot rest acc'
    | .error message => .error message

/-- The two project-root aliases added after the loop. -/
def addRootAliases (node : Node) (projectRoot : String) (d : Discovery) : Discovery :=
  { d with
    aliases := objSet (objSet d.aliases "@packages" (node.resolve projectRoot "packages"))
      "@vendor" (node.resolve projectRoot "vendor") }

/-- The function `loadAllPackages(projectRoot)`; `.error` carries the message of
the error it rejects with. -/
def loadAllPackages (node : Node) (projectRoot : String) : Except String Discovery :=
  let vuePackages := getVuePackagesFromPackageJson node projectRoot
  match loadPackages node projectRoot vuePackages { inputs := [], aliases := [] } with
  | .ok d => .ok (addRootAliases node projectRoot d)
  | .error message => .error message

/-- A candidate directory qualifies when it exists and contains `resources`. -/
def qualifies (node : Node) (dir : String) : Bool :=
  node.existsSync dir && node.existsSync (node.join dir "resources")

/-- The spec's three candidate locations, in fallback order: the location the
environment variable names (when set to a non-empty value), the `file:` path of
the dependency manifest (when one is declared), and the `node_modules` folder of
the package. -/
def candidateLocations (node : Node) (npmPackage : String)
    (packagePathFromJson : Option String) (envVar projectRoot : String) : List String :=
  ((node.env envVar).filter truthyString).toList.map (node.resolve projectRoot) ++
  ((packagePathFromJson.filter (fun p => startsWith p "file:")).toList.map
    (fun p => node.resolve projectRoot (stripFilePrefix p))) ++
  [node.resolve projectRoot ("node_modules/" ++ npmPackage)]

/-- Whether a package resolves. -/
def resolves (node : Node) (projectRoot : String) (pkg : PackageEntry) : Bool :=
  match resolvePackage node pkg.name (some pkg.path) (envVarName node pkg.name)
      projectRoot with
  | .ok _ => true
  | .error _ => false

/-- The packages of a list that resolve, each with its resolved location. -/
def resolvedPackages (node : Node) (projectRoot : String) (pkgs : List PackageEntry) :
    List (PackageEntry × String) :=
  pkgs.filterMap (fun pkg =>
    match resolvePackage node pkg.name (some pkg.path) (envVarName node pkg.name)
        projectRoot with
    | .ok packagePath => some (pkg, packagePath)
    | .error _ => none)

/-- The asset entries a list of resources yields for a package at `packagePath`:
the joined files of the items up to the first one without a `file`. -/
def resourceEntries (node : Node) (packagePath : String) (resources : List Resource) :
    List String :=
  (resources.takeWhile (fun r => r.file.isSome)).filterMap
    (fun r => r.file.map (node.join packagePath))

/-- The asset entries of one resolved package: those of the build declaration
loaded from its location, none when it has no declaration or no `resources`. -/
def assetEntries (node : Node) (resolved : PackageEntry × String) : List String :=
  match loadPackageConfig node resolved.2 with
  | some packageConfig =>
    match packageConfig.resources with
    | some resources => resourceEntries node resolved.2 resources
    | none => []
  | none => []

/-- The alias assignments an alias object yields for a package at `packagePath`:
name and absolute path of the entries up to the first value that is no string. -/
def aliasEntries (node : Node) (packagePath : String) (aliases : JsObject (Option String)) :
    List (String × String) :=
  (aliases.takeWhile (fun e => e.2.isSome)).filterMap
    (fun e => e.2.map (fun aliasPath =>
      (e.1, if node.isAbsolute aliasPath then aliasPath else node.join packagePath aliasPath)))

/-- The alias assignments of one resolved package: those of its build
declaration, made only when every item of `resources` has a `file`. -/
def aliasAssignments (node : Node) (resolved : PackageEntry × String) :
    List (String × String) :=
  match loadPackageConfig node resolved.2 with
  | some packageConfig =>
    match packageConfig.resources, packageConfig.aliases with
    | some resources, some aliases =>
      if resources.all (fun r => r.file.isSome) then aliasEntries node resolved.2 aliases
      else []
    | _, _ => []
  | none => []

/-- What one resolved package adds to the output: its asset entries, and its
alias assignments made in order. -/
def contribute (node : Node) (acc : Discovery) (resolved : PackageEntry × String) :
    Discovery :=
  { inputs := acc.inputs ++ assetEntries node resolved,
    aliases := (aliasAssignments node resolved).foldl (fun a e => objAssign a e.1 e.2)
      acc.aliases }

/-- A build declaration with a `resources` list whose items all have a `file` and
an alias object whose values are all strings. -/
def wellFormed (config : PackageConfig) : Bool :=
  match config.resources, config.aliases with
  | some resources, some aliases =>
    resources.all (fun r => r.file.isSome) && aliases.all (fun e => e.2.isSome)
  | _, _ => false

/-- The spec's naming pattern `@devcats/*-vue`: the scope `@devcats/` followed
by a short name that ends in `-vue`. -/
def isScopedVueName (name : String) : Bool :=
  startsWith name "@devcats/" && endsWith ⟨name.data.drop 9⟩ "-vue"

/-- The object `allDeps` of `getVuePackagesFromPackageJson`:
`{ ...packageJson.dependencies, ...packageJson.devDependencies }`. -/
def allDeps (packageJson : PackageJson) : JsObject String :=
  objSpread (objSpread [] (packageJson.dependencies.getD []))
    (packageJson.devDependencies.getD [])

/-! ## Sample inputs -/

/-- A loader environment in which every loader `n` succeeds with a module whose
default export is `n`. -/
def sampleLoad (loader : Nat) : Except String (EsModule Nat) :=
  .ok { default := some loader }

/-- Sample manifests: the page `Admin/Orders/Index` is a host page and also a
page of a local and of a vendor package; `Shop/Catalog/Edit` is a page of a
local and of a vendor package only. -/
def sampleManifests : Manifests Nat :=
  { cmsPages := [("../Pages/Admin/Orders/Index.vue", 0)],
    localVuePackagePages :=
      [ ("../../../../Shop-Vue/resources/admin/Pages/Admin/Orders/Index.vue", 1),
        ("../../../../Shop-Vue/resources/admin/Pages/Shop/Catalog/Edit.vue", 2) ],
    localAtlasPackagePages := [],
    npmVuePackagePages := [],
    vendorPackagePages :=
      [ ("../../../../../vendor/devcats/shop/resources/admin/Pages/Shop/Catalog/Edit.vue", 3) ] }

/-- Sample manifests as the globs build them: the directory `AtlasShop-Vue` is
matched by both local globs, and the page `Shop/Index` is also a page of an npm
package and of a vendor package. -/
def sampleGlobManifests : Manifests String :=
  { cmsPages := [],
    localVuePackagePages :=
      [("../../../../AtlasShop-Vue/resources/admin/Pages/Shop/Index.vue", "localVue")],
    localAtlasPackagePages :=
      [("../../../../AtlasShop-Vue/resources/admin/Pages/Shop/Index.vue", "localAtlas")],
    npmVuePackagePages :=
      [ ("../../../../../node_modules/@devcats/atlas-shop-vue/resources/admin/Pages/Shop/Index.vue",
          "npm") ],
    vendorPackagePages :=
      [ ("../../../../../vendor/devcats/shop/resources/admin/Pages/Shop/Index.vue",
          "vendor") ] }

/-- A sample custom-interface manifest with the one entry `Posts/Analytics`. -/
def sampleCustomInterfaces : JsObject Nat :=
  [(customInterfaceKey "Posts/Analytics", 7)]

/-- A sample project: `package.json` lists the core package, installed in
`node_modules` with a build declaration, and the package
`@devcats/atlas-shop-vue`, installed nowhere. -/
def sampleNode : Node where
  env := fun _ => none
  existsSync := fun p =>
    [ "/app/package.json",
      "/app/node_modules/@devcats/atlas-cms-vue",
      "/app/node_modules/@devcats/atlas-cms-vue/resources",
      "/app/node_modules/@devcats/atlas-cms-vue/vite.config.mjs" ].contains p
  resolve := fun a b => a ++ "/" ++ b
  join := fun a b => a ++ "/" ++ b
  isAbsolute := fun p => startsWith p "/"
  readJson := fun p =>
    if p = "/app/package.json" then
      some { dependencies := some [ ("@devcats/atlas-shop-vue", "^1.0.0"),
                                    ("@devcats/atlas-cms-vue", "^1.2.0"),
                                    ("vue", "^3.4.0") ],
             devDependencies := none }
    else none
  importConfig := fun p =>
    if p = "/app/node_modules/@devcats/atlas-cms-vue/vite.config.mjs" then
      some { resources := some [ ⟨"css", some "resources/admin/css/app.css", "admin"⟩,
                                 ⟨"js", some "resources/admin/js/app.js", "admin"⟩ ],
             aliases := some [("@admin", some "resources/admin")] }
    else none
  toUpperCase := toUpperCaseAscii

/-- The sample project without the installed core package. -/
def sampleNodeWithoutCore : Node :=
  { sampleNode with existsSync := fun p => p = "/app/package.json" }

/-- A sample project whose `package.json` lists, besides the core package and a
local shop package, the package `@devcats/atlas-vue-tools`, whose name contains
`-vue` without ending in it. -/
def sampleNodeWithTools : Node :=
  { sampleNode with
    readJson := fun p =>
      if p = "/app/package.json" then
        some { dependencies := some [ ("@devcats/atlas-vue-tools", "^2.0.0"),
                                      ("@devcats/atlas-cms-vue", "^1.2.0"),
                                      ("vue", "^3.4.0") ],
               devDependencies :=
                 some [("@devcats/atlas-shop-vue", "file:./packages/AtlasShop-Vue")] }
      else none }

/-- A sample project in which `ATLAS_CMS_VUE_PATH` names a local checkout of the
core package, which is also installed in `node_modules`. -/
def sampleNodeWithOverride : Node :=
  { sampleNode with
    env := fun v => if v = "ATLAS_CMS_VUE_PATH" then some "packages/AtlasCMS-Vue" else none
    existsSync := fun p =>
      [ "/app/package.json",
        "/app/packages/AtlasCMS-Vue",
        "/app/packages/AtlasCMS-Vue/resources",
        "/app/packages/AtlasCMS-Vue/vite.config.mjs",
        "/app/node_modules/@devcats/atlas-cms-vue",
        "/app/node_modules/@devcats/atlas-cms-vue/resources",
        "/app/node_modules/@devcats/atlas-cms-vue/vite.config.mjs" ].contains p
    importConfig := fun p =>
      if p = "/app/packages/AtlasCMS-Vue/vite.config.mjs" ∨
          p = "/app/node_modules/@devcats/atlas-cms-vue/vite.config.mjs" then
        some { resources := some [⟨"js", some "resources/admin/js/app.js", "admin"⟩],
               aliases := some [ ("@admin", some "resources/admin"),
                                 ("@shared", some "/opt/shared") ] }
      else none }

/-- The sample project with the core package installed and a build declaration
that exports no `resources`. -/
def sampleNodeWithBrokenCore : Node :=
  { sampleNode with
    importConfig := fun p =>
      if p = "/app/node_modules/@devcats/atlas-cms-vue/vite.config.mjs" then
        some { resources := none, aliases := some [("@admin", some "resources/admin")] }
      else none }

/-! ## Lemmas on objects, manifests and the discovery loop -/

theorem objSet_of_not_mem {α : Type} (o : JsObject α) (k : String) (v : α)
    (h : k ∉ objectKeys o) : objSet o k v = o ++ [(k, v)] := by
  induction o with
  | nil => rfl
  | cons e rest ih =>
    obtain ⟨k', v'⟩ := e
    simp only [objectKeys, List.map_cons, List.mem_cons, not_or] at h
    have hne : ¬ k' = k := fun hk => h.1 hk.symm
    simp only [objSet, hne, if_false, List.cons_append]
    rw [ih h.2]

theorem objSpread_eq_append {α : Type} (s t : JsObject α)
    (h : (objectKeys (t ++ s)).Nodup) : objSpread t s = t ++ s := by
  induction s generalizing t with
  | nil => simp [objSpread]
  | cons e rest ih =>
    obtain ⟨k, v⟩ := e
    have hk : k ∉ objectKeys t := by
      intro hmem
      simp only [objectKeys, List.map_append, List.map_cons] at h hmem
      rw [List.nodup_append] at h
      exact h.2.2 hmem (List.mem_cons_self _ _)
    have h' : (objectKeys ((t ++ [(k, v)]) ++ rest)).Nodup := by
      simpa using h
    have := ih (t ++ [(k, v)]) h'
    simp only [objSpread, List.foldl_cons] at this ⊢
    rw [objSet_of_not_mem t k v hk, this]
    simp

theorem objGet_of_mem {α : Type} (o : JsObject α) (k : String) (v : α)
    (hn : (objectKeys o).Nodup) (h : (k, v) ∈ o) : objGet o k = some v := by
  induction o with
  | nil => cases h
  | cons e rest ih =>
    obtain ⟨k', v'⟩ := e
    simp only [objectKeys, List.map_cons, List.nodup_cons] at hn
    rcases List.mem_cons.1 h with heq | hmem
    · cases heq
      simp [objGet]
    · have hne : ¬ k' = k := by
        intro hk
        subst hk
        exact hn.1 (List.mem_map_of_mem Prod.fst hmem)
      simp only [objGet, hne, if_false]
      exact ih hn.2 hmem

theorem objGet_of_mem_keys {α : Type} (o : JsObject α) (k : String)
    (h : k ∈ objectKeys o) : ∃ v, objGet o k = some v := by
  induction o with
  | nil => cases h
  | cons e rest ih =>
    obtain ⟨k', v'⟩ := e
    by_cases hk : k' = k
    · exact ⟨v', by simp [objGet, hk]⟩
    · simp only [objectKeys, List.map_cons, List.mem_cons] at h
      rcases h with h | h
      · exact absurd h.symm hk
      · obtain ⟨v, hv⟩ := ih h
        exact ⟨v, by simp [objGet, hk, hv]⟩

theorem objGet_eq_none {α : Type} (o : JsObject α) (k : String)
    (h : k ∉ objectKeys o) : objGet o k = none := by
  induction o with
  | nil => rfl
  | cons e rest ih =>
    obtain ⟨k', v'⟩ := e
    simp only [objectKeys, List.map_cons, List.mem_cons, not_or] at h
    have hne : ¬ k' = k := fun hk => h.1 hk.symm
    simp only [objGet, hne, if_false]
    exact ih h.2

theorem truthyString_of_keyMatches (pageName key : String)
    (h : keyMatches pageName key = true) : truthyString key = true := by
  unfold keyMatches endsWith at h
  rw [List.isSuffixOf_iff_suffix] at h
  obtain ⟨t, ht⟩ := h
  unfold truthyString
  cases hd : key.data with
  | nil =>
    simp [replaceBackslashes, hd] at ht
  | cons c cs => simp

theorem objGet_objSet {α : Type} (o : JsObject α) (k : String) (v : α) (k' : String) :
    objGet (objSet o k v) k' = if k = k' then some v else objGet o k' := by
  induction o with
  | nil => simp [objSet, objGet]
  | cons e rest ih =>
    obtain ⟨k0, v0⟩ := e
    by_cases h0 : k0 = k
    · subst h0
      by_cases h1 : k0 = k' <;> simp [objSet, objGet, h1]
    · by_cases h1 : k0 = k'
      · subst h1
        simp [objSet, objGet, h0, Ne.symm h0]
      · simp [objSet, objGet, h0, h1, ih]

/-- Object spread is last-writer-wins: a key of `src` reads as `src` gives it. -/
theorem objGet_objSpread_of_mem {α : Type} (s t : JsObject α) (k : String) (v : α)
    (hn : (objectKeys s).Nodup) (h : (k, v) ∈ s) : objGet (objSpread t s) k = some v := by
  induction s generalizing t with
  | nil => cases h
  | cons e rest ih =>
    obtain ⟨k0, v0⟩ := e
    simp only [objectKeys, List.map_cons, List.nodup_cons] at hn
    simp only [objSpread, List.foldl_cons]
    rcases List.mem_cons.1 h with heq | hin
    · cases heq
      have hk : k ∉ objectKeys rest := hn.1
      have : ∀ (u : JsObject α), k ∉ objectKeys rest →
          objGet (List.foldl (fun acc e => objSet acc e.1 e.2) u rest) k = objGet u k := by
        intro u hu
        clear ih hn h hk
        induction rest generalizing u with
        | nil => rfl
        | cons e' rest' ih' =>
          simp only [objectKeys, List.map_cons, List.mem_cons, not_or] at hu
          simp only [List.foldl_cons]
          rw [ih' _ (by simpa [objectKeys] using hu.2), objGet_objSet]
          simp [Ne.symm hu.1]
      rw [this _ hk, objGet_objSet]
      simp
    · exact ih _ hn.2 hin

theorem allPackagePages_eq_append {L : Type} (m : Manifests L)
    (h : (objectKeys (m.localVuePackagePages ++ m.localAtlasPackagePages ++
      m.npmVuePackagePages ++ m.vendorPackagePages)).Nodup) :
    allPackagePages m = m.localVuePackagePages ++ m.localAtlasPackagePages ++
      m.npmVuePackagePages ++ m.vendorPackagePages := by
  have h3 : (objectKeys (m.localVuePackagePages ++ m.localAtlasPackagePages ++
      m.npmVuePackagePages)).Nodup := by
    simp only [objectKeys, List.map_append] at h ⊢
    exact (List.nodup_append.1 h).1
  have h2 : (objectKeys (m.localVuePackagePages ++ m.localAtlasPackagePages)).Nodup := by
    simp only [objectKeys, List.map_append] at h3 ⊢
    exact (List.nodup_append.1 h3).1
  have h1 : (objectKeys ([] ++ m.localVuePackagePages)).Nodup := by
    simp only [objectKeys, List.map_append, List.nil_append] at h2 ⊢
    exact (List.nodup_append.1 h2).1
  have e1 : objSpread [] m.localVuePackagePages = m.localVuePackagePages := by
    rw [objSpread_eq_append _ _ h1]; rfl
  have e2 : localPackagePages m = m.localVuePackagePages ++ m.localAtlasPackagePages := by
    unfold localPackagePages
    rw [e1, objSpread_eq_append _ _ h2]
  have e3 : objSpread [] (localPackagePages m) = localPackagePages m := by
    rw [objSpread_eq_append]
    · rfl
    · rw [e2]; simpa using h2
  unfold allPackagePages
  rw [e3, e2, objSpread_eq_append _ _ h3, objSpread_eq_append _ _ h]

theorem find?_keys {α : Type} (o : JsObject α) (p : String → Bool) :
    (objectKeys o).find? p = (o.find? (fun e => p e.1)).map Prod.fst := by
  induction o with
  | nil => rfl
  | cons e rest ih =>
    simp only [objectKeys, List.map_cons, List.find?_cons]
    cases hp : p e.1 with
    | true => simp
    | false => simpa [objectKeys] using ih

theorem findMatchingPackagePage_eq_find? (packageKeys : List String) (pageName : String) :
    findMatchingPackagePage packageKeys pageName = packageKeys.find? (keyMatches pageName) := by
  unfold findMatchingPackagePage
  cases h : packageKeys.find? (keyMatches pageName) with
  | none => rfl
  | some key =>
    have := truthyString_of_keyMatches pageName key (List.find?_some h)
    simp [this]

theorem guarded_find_eq (packageKeys : List String) (pageName : String) :
    (if packageKeys.length > 0 then findMatchingPackagePage packageKeys pageName else none)
      = packageKeys.find? (keyMatches pageName) := by
  rw [findMatchingPackagePage_eq_find?]
  cases packageKeys with
  | nil => simp
  | cons k ks => simp

theorem objGet_eq_none_iff {α : Type} (o : JsObject α) (k : String) :
    objGet o k = none ↔ k ∉ objectKeys o := by
  constructor
  · intro h hmem
    obtain ⟨v, hv⟩ := objGet_of_mem_keys o k hmem
    rw [h] at hv
    cases hv
  · exact objGet_eq_none o k

/-- Outside the registry keys, `custom` and the names inherited from
`Object.prototype`, the resolver returns the unknown placeholder and logs nothing. -/
theorem resolveInterfaceComponent_unknown {L : Type} (customInterfaces : JsObject L)
    (type : String) (config : JsValue)
    (hown : type ∉ objectKeys interfaceComponents) (hcustom : type ≠ "custom")
    (hproto : type ∉ objectPrototypeKeys) :
    resolveInterfaceComponent customInterfaces type config
      = .ok (.component .UnknownInterface, []) := by
  have h1 : objGet interfaceComponents type = none := objGet_eq_none _ _ hown
  simp [resolveInterfaceComponent, readInterfaceComponents, h1, hproto, hcustom]

theorem startsWith_truthy (p pre : String) (hpre : truthyString pre = true)
    (h : startsWith p pre = true) : truthyString p = true := by
  unfold startsWith at h
  unfold truthyString at hpre ⊢
  cases hp : p.data with
  | nil =>
    rw [hp] at h
    cases hq : pre.data with
    | nil => rw [hq] at hpre; simp at hpre
    | cons c cs => rw [hq] at h; simp at h
  | cons c cs => simp

theorem truthy_and_startsWith_file (p : String) :
    (truthyString p && startsWith p "file:") = startsWith p "file:" := by
  cases h : startsWith p "file:" with
  | false => simp
  | true => simp [startsWith_truthy p "file:" (by decide) h]

theorem packageNotFoundMessage_startsWith (npmPackage : String)
    (packagePathFromJson : Option String) (envVar : String) :
    startsWith (packageNotFoundMessage npmPackage packagePathFromJson envVar)
      ("\n❌ Package not found: " ++ npmPackage) = true := by
  unfold startsWith packageNotFoundMessage
  simp only [String.data_append, List.append_assoc]
  rw [List.isPrefixOf_iff_prefix]
  exact List.prefix_append _ _

theorem mem_objectKeys_objSet {α : Type} (o : JsObject α) (k : String) (v : α) (k' : String) :
    k' ∈ objectKeys (objSet o k v) ↔ k' ∈ objectKeys o ∨ k' = k := by
  induction o with
  | nil => simp [objSet, objectKeys]
  | cons e rest ih =>
    obtain ⟨k0, v0⟩ := e
    by_cases h : k0 = k
    · subst h
      simp only [objSet, if_true, objectKeys, List.map_cons, List.mem_cons]
      constructor
      · intro h; exact Or.inl h
      · rintro (h | h)
        · exact h
        · exact Or.inl h
    · simp only [objSet, h, if_false]
      simp only [objectKeys, List.map_cons, List.mem_cons] at ih ⊢
      rw [ih]
      tauto

theorem nodup_objectKeys_objSet {α : Type} (o : JsObject α) (k : String) (v : α)
    (h : (objectKeys o).Nodup) : (objectKeys (objSet o k v)).Nodup := by
  induction o with
  | nil => simp [objSet, objectKeys]
  | cons e rest ih =>
    obtain ⟨k0, v0⟩ := e
    simp only [objectKeys, List.map_cons, List.nodup_cons] at h
    by_cases hk : k0 = k
    · subst hk
      simp only [objSet, if_true, objectKeys, List.map_cons, List.nodup_cons]
      exact h
    · simp only [objSet, hk, if_false]
      have hmem := mem_objectKeys_objSet rest k v k0
      simp only [objectKeys, List.map_cons, List.nodup_cons] at hmem ⊢
      refine ⟨?_, ih h.2⟩
      rw [hmem]
      rintro (h' | h')
      · exact h.1 h'
      · exact hk h'

theorem nodup_objectKeys_objSpread {α : Type} (s t : JsObject α)
    (h : (objectKeys t).Nodup) : (objectKeys (objSpread t s)).Nodup := by
  induction s generalizing t with
  | nil => simpa [objSpread] using h
  | cons e rest ih =>
    simp only [objSpread, List.foldl_cons]
    exact ih _ (nodup_objectKeys_objSet t e.1 e.2 h)

theorem nodup_names_getVuePackages (node : Node) (projectRoot : String) :
    ((getVuePackagesFromPackageJson node projectRoot).map PackageEntry.name).Nodup := by
  unfold getVuePackagesFromPackageJson
  simp only
  split
  · exact List.nodup_nil
  · split
    · exact List.nodup_nil
    · rename_i packageJson _
      rw [List.map_map]
      have hn : (objectKeys (objSpread (objSpread [] (packageJson.dependencies.getD []))
          (packageJson.devDependencies.getD []))).Nodup :=
        nodup_objectKeys_objSpread _ _ (nodup_objectKeys_objSpread _ _ List.nodup_nil)
      have hsub := List.Sublist.map Prod.fst (List.filter_sublist
        (p := fun e : String × String => startsWith e.1 "@devcats/" && includes e.1 "-vue")
        (objSpread (objSpread [] (packageJson.dependencies.getD []))
          (packageJson.devDependencies.getD [])))
      exact hsub.nodup hn

theorem mem_keys_foldl_objSet {α β : Type} (f : β → String) (g : β → α) (l : List β)
    (o : JsObject α) (k : String) :
    k ∈ objectKeys (l.foldl (fun acc e => objSet acc (f e) (g e)) o) ↔
      k ∈ objectKeys o ∨ k ∈ l.map f := by
  induction l generalizing o with
  | nil => simp
  | cons e rest ih =>
    simp only [List.foldl_cons, ih, mem_objectKeys_objSet, List.map_cons, List.mem_cons]
    tauto

theorem requiredPackage_discovered (node : Node) (projectRoot : String)
    (packageJson : PackageJson)
    (hexists : node.existsSync (node.join projectRoot "package.json") = true)
    (hread : node.readJson (node.join projectRoot "package.json") = some packageJson)
    (hlisted : requiredPackage ∈ objectKeys (packageJson.dependencies.getD []) ∨
      requiredPackage ∈ objectKeys (packageJson.devDependencies.getD [])) :
    ∃ pkg ∈ getVuePackagesFromPackageJson node projectRoot, pkg.name = requiredPackage := by
  have hkeys : requiredPackage ∈ objectKeys (objSpread (objSpread []
      (packageJson.dependencies.getD [])) (packageJson.devDependencies.getD [])) := by
    unfold objSpread
    rw [mem_keys_foldl_objSet (fun e : String × String => e.1) (fun e => e.2),
      mem_keys_foldl_objSet (fun e : String × String => e.1) (fun e => e.2)]
    rcases hlisted with h | h
    · exact Or.inl (Or.inr h)
    · exact Or.inr h
  obtain ⟨e, he, hname⟩ := List.mem_map.1 hkeys
  refine ⟨{ name := e.1, path := e.2 }, ?_, hname⟩
  unfold getVuePackagesFromPackageJson
  simp only [hexists, hread, Bool.not_true, Bool.false_eq_true, if_false]
  refine List.mem_map.2 ⟨e, List.mem_filter.2 ⟨he, ?_⟩, rfl⟩
  rw [hname]
  decide

/-- For every config whose `interface_path` converts to a string,
`resolveInterfaceComponent("custom", config)` returns a value; and the value is
the unknown placeholder when `config?.interface_path` is absent or otherwise
falsy, when it is not a string, and when it is a string whose candidate key is
not a key of the custom-interface manifest. -/
theorem resolveInterfaceComponent_custom_total {L : Type}
    (customInterfaces : JsObject L) (config : JsValue)
    (hconv : toStringThrows (interfacePathOf config) = false) :
    ∃ value logs,
      resolveInterfaceComponent customInterfaces "custom" config = .ok (value, logs) ∧
      (truthy (interfacePathOf config) = false → value = .component .UnknownInterface) ∧
      ((∀ s, interfacePathOf config ≠ .string s) → value = .component .UnknownInterface) ∧
      (∀ s, interfacePathOf config = .string s →
        customInterfaceKey s ∉ objectKeys customInterfaces →
        value = .component .UnknownInterface) := by
  have hread : readInterfaceComponents "custom" = none := by decide
  have hcatch : truthy (interfacePathOf config) = true →
      (∀ s, interfacePathOf config ≠ .string s) →
      resolveInterfaceComponent customInterfaces "custom" config
        = .ok (.component .UnknownInterface,
            [ ⟨"error", "Error resolving custom interface: "⟩, ⟨"error", "Config:"⟩ ]) := by
    intro htr hns
    have htry : resolveCustomTry customInterfaces config
        = .error "TypeError: config.interface_path.replace is not a function" := by
      unfold resolveCustomTry
      cases hp : interfacePathOf config with
      | string s => exact absurd hp (hns s)
      | _ => rfl
    simp [resolveInterfaceComponent, hread, htr, htry, hconv]
  cases htr : truthy (interfacePathOf config) with
  | false =>
    have hres : resolveInterfaceComponent customInterfaces "custom" config
        = .ok (.component .UnknownInterface,
            [⟨"warn", "Custom interface type requires interface_path in config"⟩]) := by
      simp [resolveInterfaceComponent, hread, htr]
    exact ⟨_, _, hres, fun _ => rfl, fun _ => rfl, fun _ _ _ => rfl⟩
  | true =>
    by_cases hs : ∃ s, interfacePathOf config = .string s
    · obtain ⟨s, hp⟩ := hs
      have htr' : truthy (.string s) = true := by rw [← hp]; exact htr
      cases hk : objGet customInterfaces (customInterfaceKey s) with
      | none =>
        have hres : resolveInterfaceComponent customInterfaces "custom" config
            = .ok (.component .UnknownInterface,
                [ ⟨"warn", "Custom interface not found: " ++ customInterfaceKey s⟩,
                  ⟨"log", "Available custom interfaces:"⟩,
                  ⟨"log", "Config:"⟩ ]) := by
          simp [resolveInterfaceComponent, hread, resolveCustomTry, hp, htr', hk]
        exact ⟨_, _, hres, fun _ => rfl, fun _ => rfl, fun _ _ _ => rfl⟩
      | some loader =>
        have hres : resolveInterfaceComponent customInterfaces "custom" config
            = .ok (.asyncComponent (customInterfaceKey s), []) := by
          simp [resolveInterfaceComponent, hread, resolveCustomTry, hp, htr', hk]
        refine ⟨_, _, hres, ?_, ?_, ?_⟩
        · intro h; cases h
        · intro h; exact absurd hp (h s)
        · intro s' hs' hnot
          rw [hp] at hs'
          cases hs'
          rw [objGet_eq_none _ _ hnot] at hk
          cases hk
    · have hns : ∀ s, interfacePathOf config ≠ .string s := fun s h => hs ⟨s, h⟩
      exact ⟨_, _, hcatch htr hns, fun _ => rfl, fun _ => rfl, fun _ _ _ => rfl⟩

theorem getVuePackages_eq (node : Node) (projectRoot : String) (packageJson : PackageJson)
    (hexists : node.existsSync (node.join projectRoot "package.json") = true)
    (hread : node.readJson (node.join projectRoot "package.json") = some packageJson) :
    getVuePackagesFromPackageJson node projectRoot =
      ((allDeps packageJson).filter
        (fun e => startsWith e.1 "@devcats/" && includes e.1 "-vue")).map
        (fun e => { name := e.1, path := e.2 }) := by
  unfold getVuePackagesFromPackageJson allDeps
  simp only [hexists, hread, Bool.not_true, Bool.false_eq_true, if_false]

theorem includes_of_endsWith (s sub : String) (h : endsWith s sub = true) :
    includes s sub = true := by
  unfold endsWith at h
  rw [List.isSuffixOf_iff_suffix] at h
  unfold includes
  rw [List.any_eq_true]
  exact ⟨sub.data, (List.mem_tails _ _).2 h, List.isPrefixOf_iff_prefix.2 (List.prefix_refl _)⟩

theorem endsWith_of_drop (s sub : String) (n : Nat)
    (h : endsWith ⟨s.data.drop n⟩ sub = true) : endsWith s sub = true := by
  unfold endsWith at h ⊢
  rw [List.isSuffixOf_iff_suffix] at h ⊢
  exact h.trans (List.drop_suffix n s.data)

/-- Every entry of `allDeps` whose name follows the pattern `@devcats/*-vue` is
returned, with its declared version or path. -/
theorem getVuePackages_complete (node : Node) (projectRoot : String)
    (packageJson : PackageJson)
    (hexists : node.existsSync (node.join projectRoot "package.json") = true)
    (hread : node.readJson (node.join projectRoot "package.json") = some packageJson)
    (e : String × String) (he : e ∈ allDeps packageJson)
    (hname : isScopedVueName e.1 = true) :
    ({ name := e.1, path := e.2 } : PackageEntry) ∈
      getVuePackagesFromPackageJson node projectRoot := by
  rw [getVuePackages_eq node projectRoot packageJson hexists hread]
  unfold isScopedVueName at hname
  rw [Bool.and_eq_true] at hname
  refine List.mem_map.2 ⟨e, List.mem_filter.2 ⟨he, ?_⟩, rfl⟩
  simp only [Bool.and_eq_true]
  exact ⟨hname.1, includes_of_endsWith _ _ (endsWith_of_drop _ _ 9 hname.2)⟩

/-- What the code returns: the entries of `allDeps` whose name starts with
`@devcats/` and contains `-vue`. -/
theorem mem_getVuePackages_iff (node : Node) (projectRoot : String)
    (packageJson : PackageJson)
    (hexists : node.existsSync (node.join projectRoot "package.json") = true)
    (hread : node.readJson (node.join projectRoot "package.json") = some packageJson)
    (pkg : PackageEntry) :
    pkg ∈ getVuePackagesFromPackageJson node projectRoot ↔
      (pkg.name, pkg.path) ∈ allDeps packageJson ∧
        startsWith pkg.name "@devcats/" = true ∧ includes pkg.name "-vue" = true := by
  rw [getVuePackages_eq node projectRoot packageJson hexists hread]
  constructor
  · intro h
    obtain ⟨e, he, hpkg⟩ := List.mem_map.1 h
    obtain ⟨hmem, hp⟩ := List.mem_filter.1 he
    subst hpkg
    simp only [Bool.and_eq_true] at hp
    exact ⟨hmem, hp.1, hp.2⟩
  · rintro ⟨hmem, h1, h2⟩
    refine List.mem_map.2 ⟨(pkg.name, pkg.path), List.mem_filter.2 ⟨hmem, ?_⟩, rfl⟩
    simp [h1, h2]

theorem startsWith_of_mem_getVuePackages (node : Node) (projectRoot : String)
    (pkg : PackageEntry) (h : pkg ∈ getVuePackagesFromPackageJson node projectRoot) :
    startsWith pkg.name "@devcats/" = true := by
  unfold getVuePackagesFromPackageJson at h
  simp only at h
  split at h
  · cases h
  · split at h
    · cases h
    · obtain ⟨e, he, hpkg⟩ := List.mem_map.1 h
      obtain ⟨_, hp⟩ := List.mem_filter.1 he
      subst hpkg
      simp only [Bool.and_eq_true] at hp
      exact hp.1

theorem eq_append_of_startsWith (s pre : String) (h : startsWith s pre = true) :
    ∃ short : String, s = pre ++ short := by
  unfold startsWith at h
  rw [List.isPrefixOf_iff_prefix] at h
  obtain ⟨t, ht⟩ := h
  refine ⟨⟨t⟩, ?_⟩
  apply String.ext
  simp [String.data_append, ht]

theorem replaceFirstChars_leading (pat rep s : List Char) (hpat : pat ≠ []) :
    replaceFirstChars pat rep (pat ++ s) = rep ++ s := by
  cases hps : pat ++ s with
  | nil =>
    cases pat with
    | nil => exact absurd rfl hpat
    | cons c cs => cases hps
  | cons c cs =>
    have hpre : pat.isPrefixOf (c :: cs) = true := by
      rw [← hps, List.isPrefixOf_iff_prefix]
      exact List.prefix_append _ _
    simp only [replaceFirstChars, hpre, if_true]
    rw [← hps, List.drop_left]

theorem replaceFirst_scope (short : String) :
    replaceFirst ("@devcats/" ++ short) "@devcats/" "" = short := by
  unfold replaceFirst
  apply String.ext
  simp only [String.data_append]
  rw [replaceFirstChars_leading _ _ _ (by decide)]
  rfl

theorem objGet_objSpread_of_not_mem {α : Type} (s t : JsObject α) (k : String)
    (h : k ∉ objectKeys s) : objGet (objSpread t s) k = objGet t k := by
  induction s generalizing t with
  | nil => rfl
  | cons e rest ih =>
    simp only [objectKeys, List.map_cons, List.mem_cons, not_or] at h
    simp only [objSpread, List.foldl_cons]
    have := ih (objSet t e.1 e.2) (by simpa [objectKeys] using h.2)
    simp only [objSpread] at this
    rw [this, objGet_objSet]
    simp [Ne.symm h.1]

/-- Reading a key of `{ ...target, ...src }`: the value `src` gives it when `src`
has the key, else the value of `target`. -/
theorem objGet_objSpread {α : Type} (s t : JsObject α) (k : String)
    (hn : (objectKeys s).Nodup) :
    objGet (objSpread t s) k =
      match objGet s k with
      | some v => some v
      | none => objGet t k := by
  by_cases hk : k ∈ objectKeys s
  · obtain ⟨e, he, hek⟩ := List.mem_map.1 hk
    obtain ⟨k', v⟩ := e
    cases hek
    rw [objGet_objSpread_of_mem s t k' v hn he, objGet_of_mem s k' v hn he]
  · rw [objGet_objSpread_of_not_mem s t k hk, objGet_eq_none s k hk]

theorem mem_keys_localPackagePages {L : Type} (m : Manifests L) (k : String) :
    k ∈ objectKeys (localPackagePages m) ↔
      k ∈ objectKeys m.localVuePackagePages ∨ k ∈ objectKeys m.localAtlasPackagePages := by
  unfold localPackagePages objSpread
  rw [mem_keys_foldl_objSet (fun e : String × L => e.1) (fun e => e.2),
    mem_keys_foldl_objSet (fun e : String × L => e.1) (fun e => e.2)]
  simp [objectKeys]

theorem localPackageDir_of_five_up (key : String)
    (h : startsWith key "../../../../../" = true) : localPackageDir key = ['.', '.'] := by
  unfold startsWith at h
  rw [List.isPrefixOf_iff_prefix] at h
  obtain ⟨t, ht⟩ := h
  unfold localPackageDir
  rw [← ht]
  rfl

theorem five_up_of_npm (key : String) (h : matchesNpmGlob key = true) :
    startsWith key "../../../../../" = true := by
  unfold matchesNpmGlob startsWith at h
  unfold startsWith
  rw [List.isPrefixOf_iff_prefix] at h ⊢
  exact List.IsPrefix.trans (by decide) h

theorem five_up_of_vendor (key : String) (h : matchesVendorGlob key = true) :
    startsWith key "../../../../../" = true := by
  unfold matchesVendorGlob startsWith at h
  unfold startsWith
  rw [List.isPrefixOf_iff_prefix] at h ⊢
  exact List.IsPrefix.trans (by decide) h

theorem not_local_of_five_up (key : String) (h : startsWith key "../../../../../" = true) :
    matchesLocalVueGlob key = false ∧ matchesLocalAtlasGlob key = false := by
  unfold matchesLocalVueGlob matchesLocalAtlasGlob
  rw [localPackageDir_of_five_up key h]
  constructor
  · have : "-Vue".data.isSuffixOf ['.', '.'] = false := by decide
    simp [this]
  · have : "Atlas".data.isPrefixOf ['.', '.'] = false := by decide
    simp [this]

theorem not_vendor_of_npm (key : String) (h : matchesNpmGlob key = true) :
    matchesVendorGlob key = false := by
  unfold matchesNpmGlob startsWith at h
  rw [List.isPrefixOf_iff_prefix] at h
  obtain ⟨t, ht⟩ := h
  unfold matchesVendorGlob startsWith
  rw [← ht]
  rfl

theorem objGet_allPackagePages {L : Type} (m : Manifests L) (h : FromGlobs m) (key : String) :
    objGet (allPackagePages m) key =
      match objGet m.vendorPackagePages key with
      | some loader => some loader
      | none =>
        match objGet m.npmVuePackagePages key with
        | some loader => some loader
        | none => objGet (localPackagePages m) key := by
  have hlocal : (objectKeys (localPackagePages m)).Nodup :=
    nodup_objectKeys_objSpread _ _ (nodup_objectKeys_objSpread _ _ List.nodup_nil)
  unfold allPackagePages
  rw [objGet_objSpread _ _ key h.vendorKeys, objGet_objSpread _ _ key h.npmKeys,
    objGet_objSpread _ _ key hlocal]
  cases objGet (localPackagePages m) key <;> rfl

theorem not_local_key_of_five_up {L : Type} (m : Manifests L) (h : FromGlobs m) (key : String)
    (hup : startsWith key "../../../../../" = true) :
    key ∉ objectKeys (localPackagePages m) := by
  intro hmem
  have hnot := not_local_of_five_up key hup
  rcases (mem_keys_localPackagePages m key).1 hmem with hv | ha
  · have := h.localVue key hv
    rw [hnot.1] at this
    cases this
  · have := h.localAtlas key ha
    rw [hnot.2] at this
    cases this

theorem resolveWithoutEnv_eq (node : Node) (npmPackage : String)
    (packagePathFromJson : Option String) (envVar projectRoot : String) :
    resolveWithoutEnv node npmPackage packagePathFromJson envVar projectRoot =
      (match (((packagePathFromJson.filter (fun p => startsWith p "file:")).toList.map
            (fun p => node.resolve projectRoot (stripFilePrefix p))) ++
          [node.resolve projectRoot ("node_modules/" ++ npmPackage)]).find?
          (qualifies node) with
       | some dir => .ok dir
       | none => .error (packageNotFoundMessage npmPackage packagePathFromJson envVar)) := by
  have hq : ∀ dir, (node.existsSync dir && node.existsSync (node.join dir "resources"))
      = qualifies node dir := fun _ => rfl
  unfold resolveWithoutEnv
  simp only [truthy_and_startsWith_file, hq]
  cases packagePathFromJson with
  | none =>
    cases h3 : qualifies node (node.resolve projectRoot ("node_modules/" ++ npmPackage)) <;>
      simp [List.find?_cons, h3]
  | some p =>
    cases hs : startsWith p "file:" <;>
    cases h2 : qualifies node (node.resolve projectRoot (stripFilePrefix p)) <;>
    cases h3 : qualifies node (node.resolve projectRoot ("node_modules/" ++ npmPackage)) <;>
      simp [List.find?_cons, Option.filter, hs, h2, h3]

/-- For an `envVar` that reads from the environment as a variable does, set or
not set, and not as a member inherited from `Object.prototype`,
`resolvePackage` returns the first of its candidate locations, in the order
environment variable, `file:` path of the dependency manifest,
`projectRoot/node_modules/<package name>`, that exists and contains `resources`;
it throws exactly when no candidate qualifies, and the message of the error then
starts with the "Package not found" line naming the package. -/
theorem resolvePackage_ordered_fallback (node : Node) (npmPackage : String)
    (packagePathFromJson : Option String) (envVar projectRoot : String)
    (henv : (node.env envVar).isSome = true ∨ objectPrototypeKeys.contains envVar = false) :
    resolvePackage node npmPackage packagePathFromJson envVar projectRoot =
      (match (candidateLocations node npmPackage packagePathFromJson envVar projectRoot).find?
          (qualifies node) with
       | some dir => .ok dir
       | none => .error (packageNotFoundMessage npmPackage packagePathFromJson envVar)) ∧
    ((∃ message, resolvePackage node npmPackage packagePathFromJson envVar projectRoot
        = .error message) ↔
      ∀ dir ∈ candidateLocations node npmPackage packagePathFromJson envVar projectRoot,
        qualifies node dir = false) ∧
    startsWith (packageNotFoundMessage npmPackage packagePathFromJson envVar)
      ("\n❌ Package not found: " ++ npmPackage) = true := by
  have hspec : resolvePackage node npmPackage packagePathFromJson envVar projectRoot =
      (match (candidateLocations node npmPackage packagePathFromJson envVar projectRoot).find?
          (qualifies node) with
       | some dir => .ok dir
       | none => .error (packageNotFoundMessage npmPackage packagePathFromJson envVar)) := by
    have hq : ∀ dir, (node.existsSync dir && node.existsSync (node.join dir "resources"))
        = qualifies node dir := fun _ => rfl
    unfold resolvePackage readEnv candidateLocations
    cases he : node.env envVar with
    | none =>
      have hproto : objectPrototypeKeys.contains envVar = false := by
        rcases henv with h | h
        · rw [he] at h
          cases h
        · exact h
      simp only [hproto, Bool.false_eq_true, if_false, resolveWithoutEnv_eq]
      simp [Option.filter]
    | some value =>
      simp only [hq, resolveWithoutEnv_eq]
      cases ht : truthyString value <;>
      cases h1 : qualifies node (node.resolve projectRoot value) <;>
        simp [List.find?_cons, Option.filter, ht, h1]
  refine ⟨hspec, ?_, packageNotFoundMessage_startsWith _ _ _⟩
  rw [hspec]
  cases hf : (candidateLocations node npmPackage packagePathFromJson envVar projectRoot).find?
      (qualifies node) with
  | none =>
    refine ⟨fun _ dir hdir => ?_, fun _ => ⟨_, rfl⟩⟩
    simpa using List.find?_eq_none.1 hf dir hdir
  | some dir =>
    refine ⟨fun h => ?_, fun h => ?_⟩
    · obtain ⟨message, hm⟩ := h
      cases hm
    · have := h dir (List.mem_of_find?_eq_some hf)
      rw [List.find?_some hf] at this
      cases this

theorem pushResources_eq (node : Node) (packagePath : String) (resources : List Resource)
    (inputs : List String) :
    pushResources node packagePath resources inputs =
      (inputs ++ resourceEntries node packagePath resources,
        if resources.all (fun r => r.file.isSome) then none
        else some "TypeError: The \"path\" argument must be of type string.") := by
  induction resources generalizing inputs with
  | nil => simp [pushResources, resourceEntries]
  | cons r rest ih =>
    cases hf : r.file with
    | none => simp [pushResources, resourceEntries, hf]
    | some file =>
      simp only [pushResources, hf, ih]
      simp [resourceEntries, hf, List.takeWhile_cons]

theorem assignAliases_eq (node : Node) (packagePath : String)
    (aliases : JsObject (Option String)) (assigned : JsObject String) :
    assignAliases node packagePath aliases assigned =
      ((aliasEntries node packagePath aliases).foldl (fun a e => objAssign a e.1 e.2) assigned,
        if aliases.all (fun e => e.2.isSome) then none
        else some "TypeError: The \"path\" argument must be of type string.") := by
  induction aliases generalizing assigned with
  | nil => rfl
  | cons e rest ih =>
    obtain ⟨aliasName, value⟩ := e
    cases value with
    | none => rfl
    | some aliasPath =>
      simp only [assignAliases, ih]
      rfl

theorem mergeConfig_fst (node : Node) (pkg : PackageEntry) (packagePath : String)
    (config : PackageConfig) (acc : Discovery)
    (hconfig : loadPackageConfig node packagePath = some config) :
    (mergeConfig node packagePath config acc).1 = contribute node acc (pkg, packagePath) := by
  obtain ⟨inputs, aliases⟩ := acc
  unfold mergeConfig contribute assetEntries aliasAssignments
  simp only [hconfig]
  cases hr : config.resources with
  | none =>
    simp only [List.append_nil]
    cases config.aliases <;> rfl
  | some resources =>
    simp only [pushResources_eq]
    cases hall : resources.all (fun r => r.file.isSome) with
    | false =>
      cases ha : config.aliases <;>
        simp only [hall, Bool.false_eq_true, if_false, List.foldl_nil]
    | true =>
      cases ha : config.aliases with
      | none => simp only [hall, if_true, List.foldl_nil]
      | some al => simp only [hall, if_true, assignAliases_eq]

theorem mergeConfig_snd (node : Node) (packagePath : String) (config : PackageConfig)
    (acc : Discovery) :
    ((mergeConfig node packagePath config acc).2 = none ↔ wellFormed config = true) := by
  unfold mergeConfig wellFormed
  cases hr : config.resources with
  | none => simp
  | some resources =>
    simp only [pushResources_eq]
    cases hall : resources.all (fun r => r.file.isSome) with
    | false =>
      cases ha : config.aliases <;> simp only [hall, Bool.false_eq_true, if_false] <;> simp
    | true =>
      cases ha : config.aliases with
      | none => simp
      | some al =>
        simp only [if_true, assignAliases_eq]
        cases hal : al.all (fun e => e.2.isSome) <;> simp only [hall, hal] <;> simp

theorem resolvedPackages_cons (node : Node) (projectRoot : String) (pkg : PackageEntry)
    (rest : List PackageEntry) :
    resolvedPackages node projectRoot (pkg :: rest) =
      resolvedPackages node projectRoot [pkg] ++ resolvedPackages node projectRoot rest := by
  unfold resolvedPackages
  cases hr : resolvePackage node pkg.name (some pkg.path) (envVarName node pkg.name)
      projectRoot <;>
    simp [List.filterMap_cons, hr]

theorem contribute_of_no_config (node : Node) (acc : Discovery) (pkg : PackageEntry)
    (packagePath : String) (h : loadPackageConfig node packagePath = none) :
    contribute node acc (pkg, packagePath) = acc := by
  obtain ⟨inputs, aliases⟩ := acc
  simp [contribute, assetEntries, aliasAssignments, h]

theorem tryPackage_of_error (node : Node) (projectRoot : String) (acc : Discovery)
    (pkg : PackageEntry) (message : String)
    (hr : resolvePackage node pkg.name (some pkg.path) (envVarName node pkg.name) projectRoot
      = .error message) :
    tryPackage node projectRoot acc pkg = (acc, some message) := by
  simp only [tryPackage, hr]

theorem tryPackage_of_no_config (node : Node) (projectRoot : String) (acc : Discovery)
    (pkg : PackageEntry) (packagePath : String)
    (hr : resolvePackage node pkg.name (some pkg.path) (envVarName node pkg.name) projectRoot
      = .ok packagePath)
    (hc : loadPackageConfig node packagePath = none) :
    tryPackage node projectRoot acc pkg = (acc, none) := by
  simp only [tryPackage, hr, hc]

theorem tryPackage_of_config (node : Node) (projectRoot : String) (acc : Discovery)
    (pkg : PackageEntry) (packagePath : String) (config : PackageConfig)
    (hr : resolvePackage node pkg.name (some pkg.path) (envVarName node pkg.name) projectRoot
      = .ok packagePath)
    (hc : loadPackageConfig node packagePath = some config) :
    tryPackage node projectRoot acc pkg = mergeConfig node packagePath config acc := by
  simp only [tryPackage, hr, hc]

theorem tryPackage_fst (node : Node) (projectRoot : String) (acc : Discovery)
    (pkg : PackageEntry) :
    (tryPackage node projectRoot acc pkg).1 =
      (resolvedPackages node projectRoot [pkg]).foldl (contribute node) acc := by
  unfold resolvedPackages
  cases hr : resolvePackage node pkg.name (some pkg.path) (envVarName node pkg.name)
      projectRoot with
  | error message =>
    rw [tryPackage_of_error node projectRoot acc pkg message hr]
    simp [List.filterMap_cons, hr]
  | ok packagePath =>
    simp only [List.filterMap_cons, hr, List.filterMap_nil, List.foldl_cons, List.foldl_nil]
    cases hc : loadPackageConfig node packagePath with
    | none =>
      rw [tryPackage_of_no_config node projectRoot acc pkg packagePath hr hc,
        contribute_of_no_config node acc pkg packagePath hc]
    | some config =>
      rw [tryPackage_of_config node projectRoot acc pkg packagePath config hr hc]
      exact mergeConfig_fst node pkg packagePath config acc hc

theorem mergeConfig_snd_indep (node : Node) (packagePath : String) (config : PackageConfig)
    (acc acc' : Discovery) :
    (mergeConfig node packagePath config acc).2 = (mergeConfig node packagePath config acc').2 := by
  unfold mergeConfig
  cases hres : config.resources with
  | none => rfl
  | some resources =>
    simp only [pushResources_eq]
    cases hall : resources.all (fun r => r.file.isSome) with
    | false => simp only [Bool.false_eq_true, if_false]
    | true =>
      cases ha : config.aliases with
      | none => rfl
      | some al => simp only [if_true, assignAliases_eq]

theorem tryPackage_snd (node : Node) (projectRoot : String) (acc acc' : Discovery)
    (pkg : PackageEntry) :
    (tryPackage node projectRoot acc pkg).2 = (tryPackage node projectRoot acc' pkg).2 := by
  cases hr : resolvePackage node pkg.name (some pkg.path) (envVarName node pkg.name)
      projectRoot with
  | error message =>
    rw [tryPackage_of_error node projectRoot acc pkg message hr,
      tryPackage_of_error node projectRoot acc' pkg message hr]
  | ok packagePath =>
    cases hc : loadPackageConfig node packagePath with
    | none =>
      rw [tryPackage_of_no_config node projectRoot acc pkg packagePath hr hc,
        tryPackage_of_no_config node projectRoot acc' pkg packagePath hr hc]
    | some config =>
      rw [tryPackage_of_config node projectRoot acc pkg packagePath config hr hc,
        tryPackage_of_config node projectRoot acc' pkg packagePath config hr hc]
      exact mergeConfig_snd_indep node packagePath config acc acc'

/-- The `try` block of a package throws nothing exactly when the package
resolves and the build declaration loaded from its location, if there is one, is
well-formed. -/
theorem tryPackage_snd_eq_none_iff (node : Node) (projectRoot : String) (acc : Discovery)
    (pkg : PackageEntry) :
    (tryPackage node projectRoot acc pkg).2 = none ↔
      ∃ packagePath,
        resolvePackage node pkg.name (some pkg.path) (envVarName node pkg.name) projectRoot
          = .ok packagePath ∧
        ∀ config, loadPackageConfig node packagePath = some config →
          wellFormed config = true := by
  cases hr : resolvePackage node pkg.name (some pkg.path) (envVarName node pkg.name)
      projectRoot with
  | error message =>
    rw [tryPackage_of_error node projectRoot acc pkg message hr]
    simp
  | ok packagePath =>
    cases hc : loadPackageConfig node packagePath with
    | none =>
      rw [tryPackage_of_no_config node projectRoot acc pkg packagePath hr hc]
      simp [hc]
    | some config =>
      rw [tryPackage_of_config node projectRoot acc pkg packagePath config hr hc,
        mergeConfig_snd]
      constructor
      · intro hw
        exact ⟨packagePath, rfl, fun config' h => by cases (hc.symm.trans h); exact hw⟩
      · rintro ⟨p, hp, hall⟩
        cases hp
        exact hall config hc

theorem loadPackage_eq (node : Node) (projectRoot : String) (acc : Discovery)
    (pkg : PackageEntry) :
    loadPackage node projectRoot acc pkg =
      match (tryPackage node projectRoot acc pkg).2 with
      | none => .ok ((resolvedPackages node projectRoot [pkg]).foldl (contribute node) acc)
      | some message =>
        if pkg.name = requiredPackage then .error message
        else .ok ((resolvedPackages node projectRoot [pkg]).foldl (contribute node) acc) := by
  rw [← tryPackage_fst]
  unfold loadPackage
  cases h : tryPackage node projectRoot acc pkg with
  | mk acc' err => cases err <;> rfl

theorem loadPackages_ok (node : Node) (projectRoot : String) (pkgs : List PackageEntry)
    (acc : Discovery)
    (h : ∀ pkg ∈ pkgs, pkg.name = requiredPackage →
      (tryPackage node projectRoot { inputs := [], aliases := [] } pkg).2 = none) :
    loadPackages node projectRoot pkgs acc
      = .ok ((resolvedPackages node projectRoot pkgs).foldl (contribute node) acc) := by
  induction pkgs generalizing acc with
  | nil => rfl
  | cons pkg rest ih =>
    have hrest := fun acc' => ih acc' (fun q hq => h q (List.mem_cons_of_mem _ hq))
    have hstep : loadPackage node projectRoot acc pkg
        = .ok ((resolvedPackages node projectRoot [pkg]).foldl (contribute node) acc) := by
      rw [loadPackage_eq]
      cases herr : (tryPackage node projectRoot acc pkg).2 with
      | none => rfl
      | some message =>
        have hne : pkg.name ≠ requiredPackage := by
          intro hreq
          have := h pkg (List.mem_cons_self _ _) hreq
          rw [tryPackage_snd node projectRoot _ acc pkg, herr] at this
          cases this
        simp only [hne, if_false]
    simp only [loadPackages, hstep]
    rw [hrest, resolvedPackages_cons node projectRoot pkg rest, List.foldl_append]

theorem loadPackages_error (node : Node) (projectRoot : String) (pkgs : List PackageEntry)
    (acc : Discovery) (hnodup : (pkgs.map PackageEntry.name).Nodup)
    (pkg : PackageEntry) (hmem : pkg ∈ pkgs) (hreq : pkg.name = requiredPackage)
    (message : String)
    (hfail : (tryPackage node projectRoot { inputs := [], aliases := [] } pkg).2
      = some message) :
    loadPackages node projectRoot pkgs acc = .error message := by
  induction pkgs generalizing acc with
  | nil => cases hmem
  | cons q rest ih =>
    simp only [List.map_cons, List.nodup_cons] at hnodup
    rcases List.mem_cons.1 hmem with heq | hin
    · subst heq
      have herr : (tryPackage node projectRoot acc pkg).2 = some message := by
        rw [tryPackage_snd node projectRoot acc _ pkg, hfail]
      simp only [loadPackages, loadPackage_eq, herr, hreq, if_true]
    · have hq : q.name ≠ requiredPackage := by
        intro hq
        apply hnodup.1
        rw [hq, ← hreq]
        exact List.mem_map_of_mem _ hin
      have hstep : ∃ acc', loadPackage node projectRoot acc q = .ok acc' := by
        rw [loadPackage_eq]
        refine ⟨(resolvedPackages node projectRoot [q]).foldl (contribute node) acc, ?_⟩
        cases (tryPackage node projectRoot acc q).2 with
        | none => rfl
        | some m => simp only [hq, if_false]
      obtain ⟨acc', hacc⟩ := hstep
      simp only [loadPackages, hacc]
      exact ih acc' hnodup.2 hin

/-- Dropping every package that is not the required one and does not resolve
leaves the loop of `loadAllPackages` as it is. -/
theorem loadPackages_filter (node : Node) (projectRoot : String) (pkgs : List PackageEntry)
    (acc : Discovery) :
    loadPackages node projectRoot pkgs acc =
      loadPackages node projectRoot
        (pkgs.filter (fun pkg =>
          decide (pkg.name = requiredPackage) || resolves node projectRoot pkg)) acc := by
  induction pkgs generalizing acc with
  | nil => rfl
  | cons pkg rest ih =>
    cases hkeep : (decide (pkg.name = requiredPackage) || resolves node projectRoot pkg) with
    | true =>
      simp only [List.filter_cons, hkeep, if_true, loadPackages]
      cases loadPackage node projectRoot acc pkg with
      | ok acc' => exact ih acc'
      | error message => rfl
    | false =>
      simp only [List.filter_cons, hkeep, Bool.false_eq_true, if_false]
      rw [Bool.or_eq_false_iff] at hkeep
      obtain ⟨hname, hres⟩ := hkeep
      have hne : pkg.name ≠ requiredPackage := by simpa using hname
      have hstep : loadPackage node projectRoot acc pkg = .ok acc := by
        unfold resolves at hres
        cases hr : resolvePackage node pkg.name (some pkg.path) (envVarName node pkg.name)
            projectRoot with
        | ok p => rw [hr] at hres; cases hres
        | error message =>
          unfold loadPackage
          rw [tryPackage_of_error node projectRoot acc pkg message hr]
          simp only [hne, if_false]
      simp only [loadPackages, hstep]
      exact ih acc

theorem inputs_foldl_contribute (node : Node) (l : List (PackageEntry × String))
    (acc : Discovery) :
    (l.foldl (contribute node) acc).inputs = acc.inputs ++ l.flatMap (assetEntries node) := by
  induction l generalizing acc with
  | nil => simp
  | cons r rest ih =>
    simp only [List.foldl_cons, List.flatMap_cons, ih]
    simp [contribute]

theorem aliases_foldl_contribute (node : Node) (l : List (PackageEntry × String))
    (acc : Discovery) :
    (l.foldl (contribute node) acc).aliases =
      (l.flatMap (aliasAssignments node)).foldl (fun a e => objAssign a e.1 e.2)
        acc.aliases := by
  induction l generalizing acc with
  | nil => simp
  | cons r rest ih =>
    simp only [List.foldl_cons, List.flatMap_cons, ih, List.foldl_append]
    simp [contribute]

/-- Reading a key after a sequence of assignments gives the value of the last
assignment to that key. -/
theorem objGet_foldl_objAssign (l : List (String × String)) (o : JsObject String)
    (k : String) (hk : k ≠ "__proto__") :
    objGet (l.foldl (fun a e => objAssign a e.1 e.2) o) k =
      match l.reverse.find? (fun e => e.1 == k) with
      | some e => some e.2
      | none => objGet o k := by
  induction l using List.reverseRecOn with
  | nil => rfl
  | append_singleton l e ih =>
    simp only [List.foldl_append, List.foldl_cons, List.foldl_nil, List.reverse_append,
      List.reverse_cons, List.reverse_nil, List.nil_append, List.singleton_append,
      List.find?_cons]
    by_cases he : e.1 = k
    · have hne : e.1 ≠ "__proto__" := fun h => hk (he ▸ h)
      have hbeq : (e.1 == k) = true := by simpa using he
      simp only [hbeq]
      unfold objAssign
      rw [if_neg hne, objGet_objSet, if_pos he]
    · have hbeq : (e.1 == k) = false := by simpa using he
      simp only [hbeq]
      rw [← ih]
      unfold objAssign
      split
      · rfl
      · rw [objGet_objSet]
        simp [he]

theorem addRootAliases_aliases (node : Node) (projectRoot : String) (d : Discovery) :
    (addRootAliases node projectRoot d).aliases =
      [("@packages", node.resolve projectRoot "packages"),
       ("@vendor", node.resolve projectRoot "vendor")].foldl
        (fun a e => objAssign a e.1 e.2) d.aliases := by
  have h1 : ("@packages" : String) ≠ "__proto__" := by decide
  have h2 : ("@vendor" : String) ≠ "__proto__" := by decide
  simp [addRootAliases, objAssign, h1, h2]

theorem resourceEntries_of_all (node : Node) (packagePath : String) (resources : List Resource)
    (h : ∀ r ∈ resources, r.file.isSome = true) :
    resourceEntries node packagePath resources =
      resources.filterMap (fun r => r.file.map (node.join packagePath)) := by
  unfold resourceEntries
  rw [List.takeWhile_eq_self_iff.2 h]

theorem aliasEntries_of_all (node : Node) (packagePath : String)
    (aliases : JsObject (Option String)) (h : ∀ e ∈ aliases, e.2.isSome = true) :
    aliasEntries node packagePath aliases =
      aliases.filterMap (fun e => e.2.map (fun aliasPath =>
        (e.1, if node.isAbsolute aliasPath then aliasPath
              else node.join packagePath aliasPath))) := by
  unfold aliasEntries
  rw [List.takeWhile_eq_self_iff.2 h]

theorem mem_keys_of_objGet {α : Type} (o : JsObject α) (k : String) (v : α)
    (h : objGet o k = some v) : k ∈ objectKeys o := by
  by_contra hc
  rw [objGet_eq_none o k hc] at h
  cases h

theorem loadAllPackages_eq_map (node : Node) (projectRoot : String) :
    loadAllPackages node projectRoot =
      (loadPackages node projectRoot (getVuePackagesFromPackageJson node projectRoot)
        { inputs := [], aliases := [] }).map (addRootAliases node projectRoot) := by
  unfold loadAllPackages
  simp only
  cases loadPackages node projectRoot (getVuePackagesFromPackageJson node projectRoot)
    { inputs := [], aliases := [] } <;> rfl

theorem envVarName_scoped (node : Node) (short : String) :
    envVarName node ("@devcats/" ++ short) =
      node.toUpperCase (replaceHyphens short) ++ "_PATH" := by
  unfold envVarName
  rw [replaceFirst_scope]

theorem toUpperCaseAscii_replaceHyphens (short : String) :
    toUpperCaseAscii (replaceHyphens short) =
      ⟨short.data.map (fun c => if c = '-' then '_' else c.toUpper)⟩ := by
  unfold toUpperCaseAscii replaceHyphens
  apply String.ext
  simp only [List.map_map]
  apply List.map_congr_left
  intro c _
  by_cases hc : c = '-'
  · subst hc
    decide
  · simp [hc]

theorem ascii_replaceHyphens (short : String) (h : ∀ c ∈ short.data, c.val < 128) :
    ∀ c ∈ (replaceHyphens short).data, c.val < 128 := by
  intro c hc
  unfold replaceHyphens at hc
  obtain ⟨c0, hc0, hmap⟩ := List.mem_map.1 hc
  by_cases h0 : c0 = '-'
  · simp only [h0, if_true] at hmap
    subst hmap
    decide
  · simp only [h0, if_false] at hmap
    subst hmap
    exact h c0 hc0

theorem resolvePackage_env (node : Node) (npmPackage : String)
    (packagePathFromJson : Option String) (envVar projectRoot value : String)
    (henv : node.env envVar = some value) (hset : truthyString value = true)
    (hq : qualifies node (node.resolve projectRoot value) = true) :
    resolvePackage node npmPackage packagePathFromJson envVar projectRoot
      = .ok (node.resolve projectRoot value) := by
  unfold qualifies at hq
  unfold resolvePackage readEnv
  simp only [henv, hset, hq, if_true]

theorem objGet_foldl_objAssign_of_mem (l : List (String × String)) (o : JsObject String)
    (k v : String) (hn : (l.map Prod.fst).Nodup) (h : (k, v) ∈ l) (hk : k ≠ "__proto__") :
    objGet (l.foldl (fun a e => objAssign a e.1 e.2) o) k = some v := by
  rw [objGet_foldl_objAssign l o k hk]
  have hsome : ∃ found, l.reverse.find? (fun e => e.1 == k) = some found := by
    rw [← Option.isSome_iff_exists, List.find?_isSome]
    exact ⟨(k, v), List.mem_reverse.2 h, by simp⟩
  obtain ⟨found, hfound⟩ := hsome
  rw [hfound]
  have hmem : found ∈ l := List.mem_reverse.1 (List.mem_of_find?_eq_some hfound)
  have hkey : found.1 = k := by simpa using List.find?_some hfound
  have hinj := List.inj_on_of_nodup_map hn hmem h
  have : found = (k, v) := hinj hkey
  rw [this]

theorem map_fst_aliasEntries (node : Node) (packagePath : String)
    (aliases : JsObject (Option String)) :
    ((aliasEntries node packagePath aliases).map Prod.fst).Sublist (objectKeys aliases) := by
  unfold aliasEntries objectKeys
  have h1 : ((aliases.takeWhile (fun e => e.2.isSome)).map Prod.fst).Sublist
      (aliases.map Prod.fst) :=
    List.Sublist.map _ (List.takeWhile_sublist _)
  refine List.Sublist.trans ?_ h1
  generalize aliases.takeWhile (fun e => e.2.isSome) = l
  induction l with
  | nil => simp
  | cons e rest ih =>
    obtain ⟨name, value⟩ := e
    cases value with
    | none =>
      simp only [List.filterMap_cons, Option.map_none', List.map_cons]
      exact List.Sublist.cons _ ih
    | some aliasPath =>
      simp only [List.filterMap_cons, Option.map_some', List.map_cons]
      exact List.Sublist.cons₂ _ ih

theorem loadAllPackages_inputs (node : Node) (projectRoot : String)
    (d : Discovery) (h : loadAllPackages node projectRoot = .ok d) :
    d.inputs = (resolvedPackages node projectRoot
      (getVuePackagesFromPackageJson node projectRoot)).flatMap (assetEntries node) := by
  have hok : ∀ pkg ∈ getVuePackagesFromPackageJson node projectRoot,
      pkg.name = requiredPackage →
      (tryPackage node projectRoot { inputs := [], aliases := [] } pkg).2 = none := by
    intro pkg hmem hreq
    cases hthrown : (tryPackage node projectRoot { inputs := [], aliases := [] } pkg).2 with
    | none => rfl
    | some message =>
      rw [loadAllPackages_eq_map, loadPackages_error node projectRoot _ _
        (nodup_names_getVuePackages node projectRoot) pkg hmem hreq message hthrown] at h
      cases h
  rw [loadAllPackages_eq_map, loadPackages_ok node projectRoot _ _ hok] at h
  cases h
  simp [addRootAliases, inputs_foldl_contribute]

/-- For every truthy `interface_path` whose candidate key is in the
custom-interface manifest, the resolver returns the deferred component for that
key, and the loader it wraps never rejects: it resolves to the module's default
export when the manifest loader succeeds and that export is truthy, to the
module namespace object when the loader succeeds and the module has no truthy
default export, and to the unknown placeholder when the import rejects. -/
theorem customInterfaceLoader_never_rejects {L E X : Type} (truthyExport : X → Bool)
    (customInterfaces : JsObject L) (load : L → Except E (EsModule X))
    (config : JsValue) (interface_path : String) (loader : L)
    (hpath : interfacePathOf config = .string interface_path)
    (htruthy : truthyString interface_path = true)
    (hkey : objGet customInterfaces (customInterfaceKey interface_path) = some loader) :
    resolveInterfaceComponent customInterfaces "custom" config
      = .ok (.asyncComponent (customInterfaceKey interface_path), []) ∧
    ∃ component logs,
      customInterfaceLoader truthyExport customInterfaces load
          (customInterfaceKey interface_path) = .ok (component, logs) ∧
      (∀ module x, load loader = .ok module → module.default = some x →
        truthyExport x = true → component = .defaultExport x ∧ logs = []) ∧
      (∀ module, load loader = .ok module →
        (∀ x, module.default = some x → truthyExport x = false) →
        component = .moduleNamespace module ∧ logs = []) ∧
      (∀ reason, load loader = .error reason → component = .UnknownInterface) := by
  have hread : readInterfaceComponents "custom" = none := by decide
  have htr : truthy (.string interface_path) = true := htruthy
  refine ⟨by simp [resolveInterfaceComponent, hread, htr, resolveCustomTry, hpath, hkey], ?_⟩
  cases hl : load loader with
  | error reason =>
    have hres : customInterfaceLoader truthyExport customInterfaces load
        (customInterfaceKey interface_path)
        = .ok (.UnknownInterface,
            [ ⟨"error", "Failed to load custom interface: " ++ customInterfaceKey interface_path⟩,
              ⟨"error", "Config:"⟩,
              ⟨"error", "Custom path:"⟩ ]) := by
      simp [customInterfaceLoader, hkey, customInterfaceThen, hl]
    refine ⟨_, _, hres, ?_, ?_, fun _ _ => rfl⟩
    · intro module x h; cases h
    · intro module h; cases h
  | ok module =>
    cases hd : module.default with
    | none =>
      refine ⟨.moduleNamespace module, [], ?_, ?_, ?_, ?_⟩
      · simp [customInterfaceLoader, hkey, customInterfaceThen, hl, defaultOrModule, hd,
          truthyLoaded]
      · intro module' x h hx
        cases h
        rw [hd] at hx
        cases hx
      · intro module' h _
        cases h
        exact ⟨rfl, rfl⟩
      · intro reason h; cases h
    | some x =>
      cases hx : truthyExport x with
      | true =>
        refine ⟨.defaultExport x, [], ?_, ?_, ?_, ?_⟩
        · simp [customInterfaceLoader, hkey, customInterfaceThen, hl, defaultOrModule, hd,
            truthyLoaded, hx]
        · intro module' x' h hx' _
          cases h
          rw [hd] at hx'
          cases hx'
          exact ⟨rfl, rfl⟩
        · intro module' h hall
          cases h
          have := hall x hd
          rw [hx] at this
          cases this
        · intro reason h; cases h
      | false =>
        refine ⟨.moduleNamespace module, [], ?_, ?_, ?_, ?_⟩
        · simp [customInterfaceLoader, hkey, customInterfaceThen, hl, defaultOrModule, hd,
            truthyLoaded, hx]
        · intro module' x' h hx' ht
          cases h
          rw [hd] at hx'
          cases hx'
          rw [hx] at ht
          cases ht
        · intro module' h _
          cases h
          exact ⟨rfl, rfl⟩
        · intro reason h; cases h

/-! ## The claims -/

/-- Claim C1: when the host manifest `cmsPages` has the key
`"../Pages/" + name + ".vue"`, `resolvePage(name)` invokes the loader stored
under that key and nothing else, no loader of the plug-in manifest, whatever the
plug-in manifests hold, and it settles as that loader does: when the loader
yields a module, the promise resolves to the module's default export. -/
theorem resolvePage_host_first {L E X : Type} (dev : Bool) (m : Manifests L)
    (load : L → Except E (EsModule X)) (name : String) (loader : L)
    (hhost : objGet m.cmsPages ("../Pages/" ++ name ++ ".vue") = some loader) :
    (resolvePage dev m load name).calls = [⟨.cmsPages, "../Pages/" ++ name ++ ".vue"⟩] ∧
    (∀ c ∈ (resolvePage dev m load name).calls, c.source ≠ .allPackagePages) ∧
    (resolvePage dev m load name).result = awaitDefault load loader ∧
    (∀ module, load loader = .ok module →
      (resolvePage dev m load name).result = .ok module.default) := by
  have hcalls : (resolvePage dev m load name).calls
      = [⟨.cmsPages, "../Pages/" ++ name ++ ".vue"⟩] := by
    simp only [resolvePage, hhost]
  have hres : (resolvePage dev m load name).result = awaitDefault load loader := by
    simp only [resolvePage, hhost]
  refine ⟨hcalls, ?_, hres, ?_⟩
  · intro c hc
    rw [hcalls] at hc
    simp only [List.mem_singleton] at hc
    subst hc
    simp
  · intro module hmod
    rw [hres]
    simp only [awaitDefault, hmod]

/-- Claim C2: when the host manifest has no entry for `name` and the plug-in
sources are objects with pairwise disjoint key sets, `resolvePage(name)` loads
the first entry, in the order local `*-Vue`, local `Atlas*`, npm, vendor and
source order within a source, whose backslash-normalised key ends with
`"/" + normalised name + ".vue"`; with no such entry it rejects with the
not-found error.  So of two sources that hold the page the one declared first
wins. -/
theorem resolvePage_package_precedence {L E X : Type} (dev : Bool) (m : Manifests L)
    (load : L → Except E (EsModule X)) (name : String)
    (hhost : "../Pages/" ++ name ++ ".vue" ∉ objectKeys m.cmsPages)
    (hdisj : (objectKeys (entriesInPrecedenceOrder m)).Nodup) :
    resolvePage dev m load name =
      match (entriesInPrecedenceOrder m).find? (fun e =>
          endsWith (replaceBackslashes e.1) ("/" ++ replaceBackslashes name ++ ".vue")) with
      | some e =>
        { calls := [⟨.allPackagePages, e.1⟩], logs := [], result := awaitDefault load e.2 }
      | none =>
        { calls := [], logs := if dev then devDiagnostics m name else [],
          result := .error (.thrown ("Page not found: " ++ name)) } := by
  show resolvePage dev m load name =
      match (entriesInPrecedenceOrder m).find? (fun e => keyMatches name e.1) with
      | some e =>
        { calls := [⟨.allPackagePages, e.1⟩], logs := [], result := awaitDefault load e.2 }
      | none =>
        { calls := [], logs := if dev then devDiagnostics m name else [],
          result := .error (.thrown ("Page not found: " ++ name)) }
  have hall : allPackagePages m = entriesInPrecedenceOrder m :=
    allPackagePages_eq_append m hdisj
  have hnone := objGet_eq_none _ _ hhost
  simp only [resolvePage, hnone, guarded_find_eq, hall, find?_keys]
  cases hf : (entriesInPrecedenceOrder m).find? (fun e => keyMatches name e.1) with
  | none => simp
  | some e =>
    obtain ⟨key, loader⟩ := e
    have hget : objGet (entriesInPrecedenceOrder m) key = some loader :=
      objGet_of_mem _ _ _ hdisj (List.mem_of_find?_eq_some hf)
    simp [hget]

/-- Claim C3: for manifests as the globs build them, reading a key of the merged
manifest `allPackagePages` gives the loader of the source declared first among
the local, the npm and the vendor packages that has the key; every entry of each
of the three sources reads back from the merged manifest with its own loader, so
no entry of an earlier source is overwritten by an entry of a later one; the
keys of the three sources carry different path prefixes, so a key of the npm
source is no key of the local source and a key of the vendor source is a key of
neither. -/
theorem allPackagePages_first_declared_wins {L : Type} (m : Manifests L) (h : FromGlobs m) :
    (∀ key, objGet (allPackagePages m) key = firstDeclaredLoader m key) ∧
    (∀ key loader, objGet (localPackagePages m) key = some loader →
      objGet (allPackagePages m) key = some loader) ∧
    (∀ key loader, objGet m.npmVuePackagePages key = some loader →
      objGet (allPackagePages m) key = some loader ∧
      key ∉ objectKeys (localPackagePages m)) ∧
    (∀ key loader, objGet m.vendorPackagePages key = some loader →
      objGet (allPackagePages m) key = some loader ∧
      key ∉ objectKeys (localPackagePages m) ∧
      key ∉ objectKeys m.npmVuePackagePages) := by
  have hnpm : ∀ key loader, objGet m.npmVuePackagePages key = some loader →
      key ∉ objectKeys (localPackagePages m) ∧ objGet m.vendorPackagePages key = none := by
    intro key loader hk
    have hmem : key ∈ objectKeys m.npmVuePackagePages := by
      by_contra hc
      rw [objGet_eq_none _ _ hc] at hk
      cases hk
    have hshape := h.npm key hmem
    refine ⟨not_local_key_of_five_up m h key (five_up_of_npm key hshape), ?_⟩
    apply objGet_eq_none
    intro hv
    have := h.vendor key hv
    rw [not_vendor_of_npm key hshape] at this
    cases this
  have hvendor : ∀ key loader, objGet m.vendorPackagePages key = some loader →
      key ∉ objectKeys (localPackagePages m) ∧ key ∉ objectKeys m.npmVuePackagePages := by
    intro key loader hk
    have hmem : key ∈ objectKeys m.vendorPackagePages := by
      by_contra hc
      rw [objGet_eq_none _ _ hc] at hk
      cases hk
    have hshape := h.vendor key hmem
    refine ⟨not_local_key_of_five_up m h key (five_up_of_vendor key hshape), ?_⟩
    intro hn
    have := not_vendor_of_npm key (h.npm key hn)
    rw [hshape] at this
    cases this
  have hfirst : ∀ key, objGet (allPackagePages m) key = firstDeclaredLoader m key := by
    intro key
    rw [objGet_allPackagePages m h key]
    unfold firstDeclaredLoader
    cases hv : objGet m.vendorPackagePages key with
    | some loader =>
      obtain ⟨hl, hn⟩ := hvendor key loader hv
      simp only [objGet_eq_none _ _ hl, objGet_eq_none _ _ hn]
    | none =>
      cases hn : objGet m.npmVuePackagePages key with
      | some loader =>
        obtain ⟨hl, _⟩ := hnpm key loader hn
        simp only [objGet_eq_none _ _ hl]
      | none =>
        cases objGet (localPackagePages m) key <;> rfl
  refine ⟨hfirst, ?_, ?_, ?_⟩
  · intro key loader hk
    rw [hfirst key]
    simp only [firstDeclaredLoader, hk]
  · intro key loader hk
    obtain ⟨hl, _⟩ := hnpm key loader hk
    refine ⟨?_, hl⟩
    rw [hfirst key]
    simp only [firstDeclaredLoader, objGet_eq_none _ _ hl, hk]
  · intro key loader hk
    obtain ⟨hl, hn⟩ := hvendor key loader hk
    refine ⟨?_, hl, hn⟩
    rw [hfirst key]
    simp only [firstDeclaredLoader, objGet_eq_none _ _ hl, objGet_eq_none _ _ hn, hk]

/-- Claim C4: `resolvePage(name)` rejects with its own error
`"Page not found: " + name` exactly when the host manifest has no key
`"../Pages/" + name + ".vue"` and no key of the merged plug-in manifest, after
backslash normalisation, ends with `"/" + normalised name + ".vue"`; the error it
throws has no other message; and this holds for both values of the development
flag `dev`. -/
theorem resolvePage_not_found_iff {L E X : Type} (dev : Bool) (m : Manifests L)
    (load : L → Except E (EsModule X)) (name : String) :
    ((resolvePage dev m load name).result = .error (.thrown ("Page not found: " ++ name)) ↔
      ("../Pages/" ++ name ++ ".vue" ∉ objectKeys m.cmsPages ∧
        ∀ key ∈ objectKeys (allPackagePages m),
          endsWith (replaceBackslashes key) ("/" ++ replaceBackslashes name ++ ".vue")
            = false)) ∧
    (∀ message, (resolvePage dev m load name).result = .error (.thrown message) →
      message = "Page not found: " ++ name) := by
  have hawait : ∀ (loader : L) (message : String),
      awaitDefault load loader ≠ (.error (.thrown message) : Except (Rejection E) (Option X)) := by
    intro loader message
    unfold awaitDefault
    cases load loader <;> simp
  cases hh : objGet m.cmsPages ("../Pages/" ++ name ++ ".vue") with
  | some loader =>
    have hmem : "../Pages/" ++ name ++ ".vue" ∈ objectKeys m.cmsPages := by
      by_contra hc
      rw [objGet_eq_none _ _ hc] at hh
      cases hh
    simp only [resolvePage, hh]
    exact ⟨⟨fun h => absurd h (hawait _ _), fun h => absurd hmem h.1⟩,
      fun message h => absurd h (hawait _ _)⟩
  | none =>
    have hnot := (objGet_eq_none_iff _ _).1 hh
    simp only [resolvePage, hh, guarded_find_eq]
    cases hf : (objectKeys (allPackagePages m)).find? (keyMatches name) with
    | none =>
      dsimp only [Option.bind]
      refine ⟨⟨fun _ => ⟨hnot, ?_⟩, fun _ => rfl⟩, ?_⟩
      · intro key hkey
        have := List.find?_eq_none.1 hf key hkey
        simpa [keyMatches] using this
      · intro message h
        injection h with h
        injection h with h
        exact h.symm
    | some key =>
      have hkmem := List.mem_of_find?_eq_some hf
      obtain ⟨loader, hl⟩ := objGet_of_mem_keys _ _ hkmem
      dsimp only [Option.bind]
      rw [hl]
      dsimp only [Option.map]
      refine ⟨⟨fun h => absurd h (hawait _ _), fun h => ?_⟩,
        fun message h => absurd h (hawait _ _)⟩
      have h1 := h.2 key hkmem
      have h2 := List.find?_some hf
      unfold keyMatches at h2
      rw [h1] at h2
      cases h2

/-- Claim C5: for each of the twelve entries of the registry and every config,
`resolveInterfaceComponent(type, config)` returns the component the registry
maps the type to and makes no console call; the registry keys are the twelve
built-in type strings; and `date`, `datetime` and `datetime-local` all return
`DateInterface`. -/
theorem resolveInterfaceComponent_builtin {L : Type} (customInterfaces : JsObject L)
    (config : JsValue) :
    (∀ entry ∈ interfaceComponents,
      resolveInterfaceComponent customInterfaces entry.1 config
        = .ok (.component entry.2, [])) ∧
    objectKeys interfaceComponents =
      ["text", "textarea", "wysiwyg", "file", "date", "datetime", "datetime-local",
       "select", "checkbox", "children", "categories", "product_attributes"] ∧
    resolveInterfaceComponent customInterfaces "date" config
      = .ok (.component .DateInterface, []) ∧
    resolveInterfaceComponent customInterfaces "datetime" config
      = .ok (.component .DateInterface, []) ∧
    resolveInterfaceComponent customInterfaces "datetime-local" config
      = .ok (.component .DateInterface, []) := by
  have key : ∀ entry ∈ interfaceComponents,
      readInterfaceComponents entry.1 = some (.component entry.2) := by decide
  refine ⟨?_, by decide, ?_, ?_, ?_⟩
  · intro entry h
    simp only [resolveInterfaceComponent, key entry h]
  · simp only [resolveInterfaceComponent, key ("date", .DateInterface) (by decide)]
  · simp only [resolveInterfaceComponent, key ("datetime", .DateInterface) (by decide)]
  · simp only [resolveInterfaceComponent, key ("datetime-local", .DateInterface) (by decide)]

/-- Claim C6, evaluated on the code: for the types `constructor`, `toString` and
`__proto__`, which are neither registry keys nor `custom`, the read
`interfaceComponents[type]` finds a truthy member of `Object.prototype` and the
resolver returns that member, not the unknown placeholder; the empty string does
give the unknown placeholder. -/
theorem resolveInterfaceComponent_inherited_key :
    resolveInterfaceComponent ([] : JsObject Unit) "constructor" .null
      = .ok (.objectPrototypeMember "constructor", []) ∧
    resolveInterfaceComponent ([] : JsObject Unit) "toString" .null
      = .ok (.objectPrototypeMember "toString", []) ∧
    resolveInterfaceComponent ([] : JsObject Unit) "__proto__" .null
      = .ok (.objectPrototypeMember "__proto__", []) ∧
    resolveInterfaceComponent ([] : JsObject Unit) "" .null
      = .ok (.component .UnknownInterface, []) :=
  ⟨rfl, rfl, rfl, rfl⟩

/-- Claim C7, evaluated on the code: for the config
`{ interface_path: { toString: 1 } }` the call `.replace` throws inside `try`,
and the `catch` handler throws in turn when it interpolates the path into its
message, so `resolveInterfaceComponent("custom", config)` throws a `TypeError`;
for `null` it returns the unknown placeholder with one warning. -/
theorem resolveInterfaceComponent_custom_catch_throws :
    resolveInterfaceComponent sampleCustomInterfaces "custom"
        (.object [("interface_path", .object [("toString", .number 1)])])
      = .error "TypeError: Cannot convert object to primitive value" ∧
    resolveInterfaceComponent sampleCustomInterfaces "custom" .null
      = .ok (.component .UnknownInterface,
          [⟨"warn", "Custom interface type requires interface_path in config"⟩]) :=
  ⟨rfl, rfl⟩

/-- Claim C8, evaluated on the code: the manifest entry `Posts/Analytics` loads
a module without default export; `module.default || module` then is the module
namespace object, the check `if (!component)` that would throw "does not have a
default export" never fires, and the deferred loader resolves to the module
namespace object, not to the unknown placeholder. -/
theorem customInterfaceLoader_missing_default_export :
    customInterfaceLoader (E := String) (X := Component) (fun _ => true)
        [(customInterfaceKey "Posts/Analytics", 0)] (fun _ => .ok ⟨none⟩)
        (customInterfaceKey "Posts/Analytics")
      = .ok (.moduleNamespace ⟨none⟩, []) ∧
    ¬ ∃ logs, customInterfaceLoader (E := String) (X := Component) (fun _ => true)
        [(customInterfaceKey "Posts/Analytics", 0)] (fun _ => .ok ⟨none⟩)
        (customInterfaceKey "Posts/Analytics")
      = .ok (.UnknownInterface, logs) := by
  have h : customInterfaceLoader (E := String) (X := Component) (fun _ => true)
        [(customInterfaceKey "Posts/Analytics", 0)] (fun _ => .ok ⟨none⟩)
        (customInterfaceKey "Posts/Analytics")
      = .ok (.moduleNamespace ⟨none⟩, []) := rfl
  refine ⟨h, ?_⟩
  rintro ⟨logs, hl⟩
  rw [h] at hl
  cases hl

/-- Claim C9, evaluated on the code: in the sample project no variable `toString`
is set and the `node_modules` location of the core package qualifies; called
with `envVar = "toString"`, `resolvePackage` reads the inherited
`process.env.toString`, a truthy function, passes it to `path.resolve` and
throws a `TypeError` instead of returning the `node_modules` location, which it
does return for the variable name `ATLAS_CMS_VUE_PATH`. -/
theorem resolvePackage_inherited_env_throws :
    sampleNode.env "toString" = none ∧
    qualifies sampleNode (sampleNode.resolve "/app" ("node_modules/" ++ requiredPackage)) = true ∧
    resolvePackage sampleNode requiredPackage (some "^1.2.0") "toString" "/app" =
      .error "TypeError [ERR_INVALID_ARG_TYPE]: The \"paths[1]\" argument must be of type string." ∧
    resolvePackage sampleNode requiredPackage (some "^1.2.0") "ATLAS_CMS_VUE_PATH" "/app" =
      .ok "/app/node_modules/@devcats/atlas-cms-vue" :=
  ⟨rfl, by decide, rfl, rfl⟩

/-- Claim C10: a core package listed in the dependency manifest is discovered;
if the discovered core package `@devcats/atlas-cms-vue` does not resolve,
`loadAllPackages` rejects with the resolution error.  A package other than the
core one that does not resolve has no effect at all: the result, output or
error, is the one of the run without it.  When the core package, if listed,
resolves and its build declaration, if any, is well-formed, `loadAllPackages`
succeeds whatever other packages fail; its output is built from the packages
that resolve alone: the asset entries are those of the resolved packages, in
order, an alias reads as the last assignment made to it by a resolved package or
by the two project-root aliases, and every resolved package contributes every
asset entry of a `resources` list whose items all name a file and every alias of
a well-formed build declaration (`__proto__`, which an assignment cannot write,
apart).  A core package that resolves with a build declaration that is not
well-formed makes `loadAllPackages` reject. -/
theorem loadAllPackages_required_and_optional (node : Node) (projectRoot : String) :
    (∀ packageJson,
      node.existsSync (node.join projectRoot "package.json") = true →
      node.readJson (node.join projectRoot "package.json") = some packageJson →
      (requiredPackage ∈ objectKeys (packageJson.dependencies.getD []) ∨
        requiredPackage ∈ objectKeys (packageJson.devDependencies.getD [])) →
      ∃ pkg ∈ getVuePackagesFromPackageJson node projectRoot, pkg.name = requiredPackage) ∧
    (∀ pkg ∈ getVuePackagesFromPackageJson node projectRoot, pkg.name = requiredPackage →
      ∀ message,
        resolvePackage node pkg.name (some pkg.path) (envVarName node pkg.name) projectRoot
          = .error message →
        loadAllPackages node projectRoot = .error message) ∧
    (loadAllPackages node projectRoot =
      (loadPackages node projectRoot
        ((getVuePackagesFromPackageJson node projectRoot).filter (fun pkg =>
          decide (pkg.name = requiredPackage) || resolves node projectRoot pkg))
        { inputs := [], aliases := [] }).map (addRootAliases node projectRoot)) ∧
    ((∀ pkg ∈ getVuePackagesFromPackageJson node projectRoot, pkg.name = requiredPackage →
        ∃ packagePath,
          resolvePackage node pkg.name (some pkg.path) (envVarName node pkg.name) projectRoot
            = .ok packagePath ∧
          ∀ config, loadPackageConfig node packagePath = some config →
            wellFormed config = true) →
      ∃ d, loadAllPackages node projectRoot = .ok d ∧
        d = addRootAliases node projectRoot
          ((resolvedPackages node projectRoot
            (getVuePackagesFromPackageJson node projectRoot)).foldl (contribute node)
              { inputs := [], aliases := [] }) ∧
        d.inputs = (resolvedPackages node projectRoot
          (getVuePackagesFromPackageJson node projectRoot)).flatMap (assetEntries node) ∧
        (∀ aliasName, aliasName ≠ "__proto__" →
          objGet d.aliases aliasName =
            ((((resolvedPackages node projectRoot
                (getVuePackagesFromPackageJson node projectRoot)).flatMap
                  (aliasAssignments node) ++
                [("@packages", node.resolve projectRoot "packages"),
                 ("@vendor", node.resolve projectRoot "vendor")]).reverse.find?
              (fun e => e.1 == aliasName)).map Prod.snd)) ∧
        (∀ r ∈ resolvedPackages node projectRoot
            (getVuePackagesFromPackageJson node projectRoot),
          ∀ config resources, loadPackageConfig node r.2 = some config →
            config.resources = some resources →
            (∀ x ∈ resources, x.file.isSome = true) →
            ∀ x ∈ resources, ∀ file, x.file = some file →
              node.join r.2 file ∈ d.inputs) ∧
        (∀ r ∈ resolvedPackages node projectRoot
            (getVuePackagesFromPackageJson node projectRoot),
          ∀ config aliases, loadPackageConfig node r.2 = some config →
            wellFormed config = true → config.aliases = some aliases →
            ∀ e ∈ aliases, e.1 ≠ "__proto__" → e.1 ∈ objectKeys d.aliases)) ∧
    (∀ pkg ∈ getVuePackagesFromPackageJson node projectRoot, pkg.name = requiredPackage →
      ∀ packagePath config,
        resolvePackage node pkg.name (some pkg.path) (envVarName node pkg.name) projectRoot
          = .ok packagePath →
        loadPackageConfig node packagePath = some config →
        wellFormed config = false →
        ∃ message, loadAllPackages node projectRoot = .error message) := by
  have hnodup := nodup_names_getVuePackages node projectRoot
  refine ⟨fun packageJson hexists hread hlisted =>
    requiredPackage_discovered node projectRoot packageJson hexists hread hlisted, ?_, ?_, ?_, ?_⟩
  · intro pkg hmem hreq message hfail
    have hthrown : (tryPackage node projectRoot { inputs := [], aliases := [] } pkg).2
        = some message := by
      rw [tryPackage_of_error node projectRoot _ pkg message hfail]
    rw [loadAllPackages_eq_map,
      loadPackages_error node projectRoot _ _ hnodup pkg hmem hreq message hthrown]
    rfl
  · rw [loadAllPackages_eq_map, loadPackages_filter]
  · intro h
    have hok : ∀ pkg ∈ getVuePackagesFromPackageJson node projectRoot,
        pkg.name = requiredPackage →
        (tryPackage node projectRoot { inputs := [], aliases := [] } pkg).2 = none :=
      fun pkg hmem hreq => (tryPackage_snd_eq_none_iff node projectRoot _ pkg).2 (h pkg hmem hreq)
    have hd : loadAllPackages node projectRoot = .ok (addRootAliases node projectRoot
        ((resolvedPackages node projectRoot
          (getVuePackagesFromPackageJson node projectRoot)).foldl (contribute node)
            { inputs := [], aliases := [] })) := by
      rw [loadAllPackages_eq_map, loadPackages_ok node projectRoot _ _ hok]
      rfl
    have hinputs : (addRootAliases node projectRoot
        ((resolvedPackages node projectRoot
          (getVuePackagesFromPackageJson node projectRoot)).foldl (contribute node)
            { inputs := [], aliases := [] })).inputs = (resolvedPackages node projectRoot
          (getVuePackagesFromPackageJson node projectRoot)).flatMap (assetEntries node) := by
      simp [addRootAliases, inputs_foldl_contribute]
    have haliases : ∀ aliasName, aliasName ≠ "__proto__" →
        objGet (addRootAliases node projectRoot
          ((resolvedPackages node projectRoot
            (getVuePackagesFromPackageJson node projectRoot)).foldl (contribute node)
              { inputs := [], aliases := [] })).aliases aliasName =
          ((((resolvedPackages node projectRoot
              (getVuePackagesFromPackageJson node projectRoot)).flatMap
                (aliasAssignments node) ++
              [("@packages", node.resolve projectRoot "packages"),
               ("@vendor", node.resolve projectRoot "vendor")]).reverse.find?
            (fun e => e.1 == aliasName)).map Prod.snd) := by
      intro aliasName hne
      rw [addRootAliases_aliases, aliases_foldl_contribute, ← List.foldl_append,
        objGet_foldl_objAssign _ _ _ hne]
      cases List.find? (fun e => e.1 == aliasName)
        ((resolvedPackages node projectRoot
            (getVuePackagesFromPackageJson node projectRoot)).flatMap
              (aliasAssignments node) ++
            [("@packages", node.resolve projectRoot "packages"),
             ("@vendor", node.resolve projectRoot "vendor")]).reverse <;> rfl
    refine ⟨_, hd, rfl, hinputs, haliases, ?_, ?_⟩
    · intro r hr config resources hconfig hres hall x hx file hfile
      rw [hinputs, List.mem_flatMap]
      refine ⟨r, hr, ?_⟩
      simp only [assetEntries, hconfig, hres, resourceEntries_of_all node r.2 resources hall]
      exact List.mem_filterMap.2 ⟨x, hx, by simp [hfile]⟩
    · intro r hr config aliases hconfig hwf hal e he hne
      have hparts : (∃ resources, config.resources = some resources ∧
          resources.all (fun r => r.file.isSome) = true) ∧
          aliases.all (fun e => e.2.isSome) = true := by
        unfold wellFormed at hwf
        rw [hal] at hwf
        cases hres : config.resources with
        | none => rw [hres] at hwf; cases hwf
        | some resources =>
          rw [hres] at hwf
          simp only [Bool.and_eq_true] at hwf
          exact ⟨⟨resources, rfl, hwf.1⟩, hwf.2⟩
      obtain ⟨⟨resources, hres, hall⟩, hvalues⟩ := hparts
      have hvalues' : ∀ e ∈ aliases, e.2.isSome = true := List.all_eq_true.1 hvalues
      obtain ⟨aliasPath, hpath⟩ := Option.isSome_iff_exists.1 (hvalues' e he)
      have hassigned : (e.1, if node.isAbsolute aliasPath then aliasPath
          else node.join r.2 aliasPath) ∈ aliasAssignments node r := by
        simp only [aliasAssignments, hconfig, hres, hal, hall, if_true,
          aliasEntries_of_all node r.2 aliases hvalues']
        exact List.mem_filterMap.2 ⟨e, he, by simp [hpath]⟩
      have hfind : ∃ found, (((resolvedPackages node projectRoot
          (getVuePackagesFromPackageJson node projectRoot)).flatMap
            (aliasAssignments node) ++
          [("@packages", node.resolve projectRoot "packages"),
           ("@vendor", node.resolve projectRoot "vendor")]).reverse.find?
          (fun x => x.1 == e.1)) = some found := by
        rw [← Option.isSome_iff_exists, List.find?_isSome]
        refine ⟨_, List.mem_reverse.2 (List.mem_append_left _
          (List.mem_flatMap.2 ⟨r, hr, hassigned⟩)), ?_⟩
        simp
      obtain ⟨found, hfound⟩ := hfind
      have := haliases e.1 hne
      rw [hfound] at this
      exact mem_keys_of_objGet _ _ _ this
  · intro pkg hmem hreq packagePath config hres hconfig hwf
    cases hthrown : (tryPackage node projectRoot { inputs := [], aliases := [] } pkg).2 with
    | none =>
      obtain ⟨p, hp, hall⟩ := (tryPackage_snd_eq_none_iff node projectRoot _ pkg).1 hthrown
      rw [hres] at hp
      cases hp
      rw [hall config hconfig] at hwf
      cases hwf
    | some message =>
      refine ⟨message, ?_⟩
      rw [loadAllPackages_eq_map,
        loadPackages_error node projectRoot _ _ hnodup pkg hmem hreq message hthrown]
      rfl

/-- Claim C11, evaluated on the code: the filter tests `name.includes('-vue')`,
so from a `package.json` that lists `@devcats/atlas-vue-tools`, whose name
contains `-vue` without ending in it, `getVuePackagesFromPackageJson` returns
that entry too, next to the two entries that follow the pattern
`@devcats/*-vue`. -/
theorem getVuePackagesFromPackageJson_keeps_infix_name :
    getVuePackagesFromPackageJson sampleNodeWithTools "/app" =
      [ { name := "@devcats/atlas-vue-tools", path := "^2.0.0" },
        { name := "@devcats/atlas-cms-vue", path := "^1.2.0" },
        { name := "@devcats/atlas-shop-vue", path := "file:./packages/AtlasShop-Vue" } ] ∧
    endsWith "@devcats/atlas-vue-tools" "-vue" = false ∧
    isScopedVueName "@devcats/atlas-vue-tools" = false := by
  decide

/-- Claim C12: for a package name `"@devcats/" + short` the override variable
consulted is `toUpperCase` of the short name with every hyphen replaced by an
underscore, followed by `_PATH`; where `toUpperCase` uppercases ASCII strings
letter by letter this is, for an ASCII short name, the name with hyphens turned
to underscores and letters uppercased, and `ATLAS_CMS_VUE_PATH` for the core
package; every discovered name has that form.  When that variable has a
non-empty value naming a directory that exists and contains `resources`,
`resolvePackage` returns that directory whatever the manifest declares and
`node_modules` holds, and the loop body joins the asset entries and the relative
aliases of the build declaration loaded from it onto that directory; the asset
entries so formed are in the output of `loadAllPackages`. -/
theorem loadPackage_env_override (node : Node) (projectRoot short : String) :
    envVarName node ("@devcats/" ++ short) =
      node.toUpperCase (replaceHyphens short) ++ "_PATH" ∧
    ((∀ s : String, (∀ c ∈ s.data, c.val < 128) → node.toUpperCase s = toUpperCaseAscii s) →
      (∀ c ∈ short.data, c.val < 128) →
      envVarName node ("@devcats/" ++ short) =
        ⟨short.data.map (fun c => if c = '-' then '_' else c.toUpper)⟩ ++ "_PATH") ∧
    (node.toUpperCase "atlas_cms_vue" = "ATLAS_CMS_VUE" →
      envVarName node "@devcats/atlas-cms-vue" = "ATLAS_CMS_VUE_PATH") ∧
    (∀ pkg ∈ getVuePackagesFromPackageJson node projectRoot,
      ∃ short', pkg.name = "@devcats/" ++ short') ∧
    (∀ path value : String,
      node.env (envVarName node ("@devcats/" ++ short)) = some value →
      truthyString value = true →
      qualifies node (node.resolve projectRoot value) = true →
      resolvePackage node ("@devcats/" ++ short) (some path)
          (envVarName node ("@devcats/" ++ short)) projectRoot
        = .ok (node.resolve projectRoot value) ∧
      ∀ config, loadPackageConfig node (node.resolve projectRoot value) = some config →
        (∀ acc resources, config.resources = some resources →
          (tryPackage node projectRoot acc
              { name := "@devcats/" ++ short, path := path }).1.inputs =
            acc.inputs ++ resourceEntries node (node.resolve projectRoot value) resources) ∧
        (∀ acc, wellFormed config = true →
          loadPackage node projectRoot acc { name := "@devcats/" ++ short, path := path } =
            .ok (tryPackage node projectRoot acc
              { name := "@devcats/" ++ short, path := path }).1) ∧
        (∀ acc aliases, wellFormed config = true → config.aliases = some aliases →
          (objectKeys aliases).Nodup →
          ∀ aliasName aliasPath, (aliasName, some aliasPath) ∈ aliases →
            aliasName ≠ "__proto__" → node.isAbsolute aliasPath = false →
            objGet (tryPackage node projectRoot acc
                { name := "@devcats/" ++ short, path := path }).1.aliases aliasName
              = some (node.join (node.resolve projectRoot value) aliasPath)) ∧
        (∀ d resources, loadAllPackages node projectRoot = .ok d →
          ({ name := "@devcats/" ++ short, path := path } : PackageEntry) ∈
            getVuePackagesFromPackageJson node projectRoot →
          config.resources = some resources →
          (∀ x ∈ resources, x.file.isSome = true) →
          ∀ x ∈ resources, ∀ file, x.file = some file →
            node.join (node.resolve projectRoot value) file ∈ d.inputs)) := by
  refine ⟨envVarName_scoped node short, ?_, ?_, ?_, ?_⟩
  · intro hupper hascii
    rw [envVarName_scoped, hupper _ (ascii_replaceHyphens short hascii),
      toUpperCaseAscii_replaceHyphens]
  · intro hupper
    have := envVarName_scoped node "atlas-cms-vue"
    have hname : ("@devcats/" ++ "atlas-cms-vue" : String) = "@devcats/atlas-cms-vue" := by
      decide
    have hhyphens : replaceHyphens "atlas-cms-vue" = "atlas_cms_vue" := by decide
    rw [hname, hhyphens, hupper] at this
    rw [this]
    decide
  · intro pkg hmem
    exact eq_append_of_startsWith _ _ (startsWith_of_mem_getVuePackages node projectRoot pkg hmem)
  · intro path value henv hset hq
    have hres := resolvePackage_env node ("@devcats/" ++ short) (some path)
      (envVarName node ("@devcats/" ++ short)) projectRoot value henv hset hq
    refine ⟨hres, ?_⟩
    intro config hconfig
    have htry : ∀ acc, tryPackage node projectRoot acc
        { name := "@devcats/" ++ short, path := path } =
        mergeConfig node (node.resolve projectRoot value) config acc :=
      fun acc => tryPackage_of_config node projectRoot acc
        { name := "@devcats/" ++ short, path := path } _ config hres hconfig
    have hstate : ∀ acc, (tryPackage node projectRoot acc
        { name := "@devcats/" ++ short, path := path }).1 =
        contribute node acc
          ({ name := "@devcats/" ++ short, path := path }, node.resolve projectRoot value) := by
      intro acc
      rw [htry acc]
      exact mergeConfig_fst node _ _ config acc hconfig
    refine ⟨?_, ?_, ?_, ?_⟩
    · intro acc resources hr
      rw [hstate acc]
      simp only [contribute, assetEntries, hconfig, hr]
    · intro acc hwf
      have hnone : (tryPackage node projectRoot acc
          { name := "@devcats/" ++ short, path := path }).2 = none := by
        rw [htry acc]
        exact (mergeConfig_snd node _ config acc).2 hwf
      rw [loadPackage_eq, hnone, tryPackage_fst]
    · intro acc aliases hwf hal hn aliasName aliasPath hmem hne habs
      have hparts : (∃ resources, config.resources = some resources ∧
          resources.all (fun r => r.file.isSome) = true) ∧
          aliases.all (fun e => e.2.isSome) = true := by
        unfold wellFormed at hwf
        rw [hal] at hwf
        cases hres' : config.resources with
        | none => rw [hres'] at hwf; cases hwf
        | some resources =>
          rw [hres'] at hwf
          simp only [Bool.and_eq_true] at hwf
          exact ⟨⟨resources, rfl, hwf.1⟩, hwf.2⟩
      obtain ⟨⟨resources, hr, hall⟩, hvalues⟩ := hparts
      have hvalues' : ∀ e ∈ aliases, e.2.isSome = true := List.all_eq_true.1 hvalues
      rw [hstate acc]
      simp only [contribute, aliasAssignments, hconfig, hr, hal, hall, if_true]
      have hnodup : ((aliasEntries node (node.resolve projectRoot value) aliases).map
          Prod.fst).Nodup :=
        (map_fst_aliasEntries node _ aliases).nodup hn
      have hentry : (aliasName, node.join (node.resolve projectRoot value) aliasPath) ∈
          aliasEntries node (node.resolve projectRoot value) aliases := by
        rw [aliasEntries_of_all node _ aliases hvalues']
        exact List.mem_filterMap.2 ⟨(aliasName, some aliasPath), hmem, by simp [habs]⟩
      exact objGet_foldl_objAssign_of_mem _ _ _ _ hnodup hentry hne
    · intro d resources hd hmem hr hall x hx file hfile
      rw [loadAllPackages_inputs node projectRoot d hd, List.mem_flatMap]
      refine ⟨({ name := "@devcats/" ++ short, path := path }, node.resolve projectRoot value),
        ?_, ?_⟩
      · unfold resolvedPackages
        rw [List.mem_filterMap]
        exact ⟨_, hmem, by simp only [hres]⟩
      · simp only [assetEntries, hconfig, hr, resourceEntries_of_all node _ resources hall]
        exact List.mem_filterMap.2 ⟨x, hx, by simp [hfile]⟩

/-! ## Instances of the claims on the sample inputs -/

/-- Witness for C1: `Admin/Orders/Index` is a host page of the sample manifests
and also a page of a local package; only the host loader runs. -/
theorem resolvePage_host_first_witness :
    objGet sampleManifests.cmsPages ("../Pages/" ++ "Admin/Orders/Index" ++ ".vue") = some 0 ∧
    (resolvePage false sampleManifests sampleLoad "Admin/Orders/Index").calls
      = [⟨.cmsPages, "../Pages/" ++ "Admin/Orders/Index" ++ ".vue"⟩] ∧
    (resolvePage false sampleManifests sampleLoad "Admin/Orders/Index").result
      = .ok (some 0) :=
  ⟨by decide,
   (resolvePage_host_first false sampleManifests sampleLoad "Admin/Orders/Index" 0
      (by decide)).1,
   (resolvePage_host_first false sampleManifests sampleLoad "Admin/Orders/Index" 0
      (by decide)).2.2.2 { default := some 0 } rfl⟩

/-- Witness for C2: `Shop/Catalog/Edit` is no host page and is a page of a local
and of a vendor package; the local one is loaded. -/
theorem resolvePage_package_precedence_witness :
    "../Pages/" ++ "Shop/Catalog/Edit" ++ ".vue" ∉ objectKeys sampleManifests.cmsPages ∧
    (objectKeys (entriesInPrecedenceOrder sampleManifests)).Nodup ∧
    (resolvePage false sampleManifests sampleLoad "Shop/Catalog/Edit").calls
      = [⟨.allPackagePages,
          "../../../../Shop-Vue/resources/admin/Pages/Shop/Catalog/Edit.vue"⟩] :=
  ⟨by decide, by decide,
   (congrArg PageOutcome.calls
      (resolvePage_package_precedence false sampleManifests sampleLoad "Shop/Catalog/Edit"
        (by decide) (by decide))).trans (by decide)⟩

/-- Witness for C3: the sample manifests have the shape of the globs; the key of
the npm source reads back with the npm loader, and the merged manifest lists the
local key first, then the npm key, then the vendor key. -/
theorem allPackagePages_first_declared_wins_witness :
    FromGlobs sampleGlobManifests ∧
    objGet (allPackagePages sampleGlobManifests)
        "../../../../../node_modules/@devcats/atlas-shop-vue/resources/admin/Pages/Shop/Index.vue"
      = some "npm" ∧
    objectKeys (allPackagePages sampleGlobManifests) =
      [ "../../../../AtlasShop-Vue/resources/admin/Pages/Shop/Index.vue",
        "../../../../../node_modules/@devcats/atlas-shop-vue/resources/admin/Pages/Shop/Index.vue",
        "../../../../../vendor/devcats/shop/resources/admin/Pages/Shop/Index.vue" ] :=
  ⟨⟨by decide, by decide, by decide, by decide, by decide, by decide⟩,
   ((allPackagePages_first_declared_wins sampleGlobManifests
      ⟨by decide, by decide, by decide, by decide, by decide, by decide⟩).2.2.1 _ "npm"
      (by decide)).1,
   by decide⟩

/-- Witness for C4: `Nonexistent/Page` is in no sample manifest, and the
resolver rejects with the not-found error, in development mode too. -/
theorem resolvePage_not_found_iff_witness :
    (resolvePage true sampleManifests sampleLoad "Nonexistent/Page").result
      = .error (.thrown ("Page not found: " ++ "Nonexistent/Page")) :=
  (resolvePage_not_found_iff true sampleManifests sampleLoad "Nonexistent/Page").1.2
    ⟨by decide, by decide⟩

/-- Witness for C5: the registry entry `text`. -/
theorem resolveInterfaceComponent_builtin_witness :
    resolveInterfaceComponent sampleCustomInterfaces "text" .null
      = .ok (.component .TextInterface, []) :=
  (resolveInterfaceComponent_builtin sampleCustomInterfaces .null).1
    ("text", .TextInterface) (by decide)

/-- Witness for C10: without the core package discovery aborts with the
resolution error; with it, the missing optional package is skipped and the core
package contributes its two asset entries and its alias; with a core package
whose build declaration exports no `resources`, discovery aborts too. -/
theorem loadAllPackages_required_and_optional_witness :
    loadAllPackages sampleNodeWithoutCore "/app"
      = .error (packageNotFoundMessage requiredPackage (some "^1.2.0")
          (envVarName sampleNodeWithoutCore requiredPackage)) ∧
    (∃ d, loadAllPackages sampleNode "/app" = .ok d ∧
      d.inputs = [ "/app/node_modules/@devcats/atlas-cms-vue/resources/admin/css/app.css",
                   "/app/node_modules/@devcats/atlas-cms-vue/resources/admin/js/app.js" ] ∧
      objGet d.aliases "@admin"
        = some "/app/node_modules/@devcats/atlas-cms-vue/resources/admin") ∧
    (∃ message, loadAllPackages sampleNodeWithBrokenCore "/app" = .error message) :=
  ⟨(loadAllPackages_required_and_optional sampleNodeWithoutCore "/app").2.1
      { name := requiredPackage, path := "^1.2.0" } (by decide) rfl _ rfl,
   match (loadAllPackages_required_and_optional sampleNode "/app").2.2.2.1 (by
      have hpkgs : getVuePackagesFromPackageJson sampleNode "/app"
          = [ { name := "@devcats/atlas-shop-vue", path := "^1.0.0" },
              { name := "@devcats/atlas-cms-vue", path := "^1.2.0" } ] := by decide
      intro pkg hmem hreq
      rw [hpkgs] at hmem
      simp only [List.mem_cons, List.mem_singleton, List.not_mem_nil, or_false] at hmem
      rcases hmem with h | h
      · subst h
        exact absurd hreq (by decide)
      · subst h
        refine ⟨"/app/node_modules/@devcats/atlas-cms-vue", rfl, ?_⟩
        intro config hconfig
        have hload : loadPackageConfig sampleNode "/app/node_modules/@devcats/atlas-cms-vue"
            = some { resources := some [ ⟨"css", some "resources/admin/css/app.css", "admin"⟩,
                                         ⟨"js", some "resources/admin/js/app.js", "admin"⟩ ],
                     aliases := some [("@admin", some "resources/admin")] } := rfl
        cases hload.symm.trans hconfig
        rfl) with
   | ⟨d, hd, _, hinputs, haliases, _, _⟩ =>
     ⟨d, hd, hinputs.trans (by decide), (haliases "@admin" (by decide)).trans (by decide)⟩,
   (loadAllPackages_required_and_optional sampleNodeWithBrokenCore "/app").2.2.2.2
      { name := requiredPackage, path := "^1.2.0" } (by decide) rfl
      "/app/node_modules/@devcats/atlas-cms-vue"
      { resources := none, aliases := some [("@admin", some "resources/admin")] }
      rfl rfl rfl⟩

/-- Witness for C12: in the sample project `ATLAS_CMS_VUE_PATH` names a local
checkout that qualifies; the core package resolves to it although it is
installed in `node_modules` too, and its asset entry and its relative alias are
joined onto the checkout. -/
theorem loadPackage_env_override_witness :
    sampleNodeWithOverride.env (envVarName sampleNodeWithOverride ("@devcats/" ++ "atlas-cms-vue"))
      = some "packages/AtlasCMS-Vue" ∧
    truthyString "packages/AtlasCMS-Vue" = true ∧
    qualifies sampleNodeWithOverride
      (sampleNodeWithOverride.resolve "/app" "packages/AtlasCMS-Vue") = true ∧
    resolvePackage sampleNodeWithOverride ("@devcats/" ++ "atlas-cms-vue") (some "^1.2.0")
        (envVarName sampleNodeWithOverride ("@devcats/" ++ "atlas-cms-vue")) "/app"
      = .ok "/app/packages/AtlasCMS-Vue" ∧
    (tryPackage sampleNodeWithOverride "/app" { inputs := [], aliases := [] }
        { name := "@devcats/" ++ "atlas-cms-vue", path := "^1.2.0" }).1.inputs
      = ["/app/packages/AtlasCMS-Vue/resources/admin/js/app.js"] ∧
    objGet (tryPackage sampleNodeWithOverride "/app" { inputs := [], aliases := [] }
        { name := "@devcats/" ++ "atlas-cms-vue", path := "^1.2.0" }).1.aliases "@admin"
      = some "/app/packages/AtlasCMS-Vue/resources/admin" :=
  ⟨by decide, by decide, by decide,
   ((loadPackage_env_override sampleNodeWithOverride "/app" "atlas-cms-vue").2.2.2.2
      "^1.2.0" "packages/AtlasCMS-Vue" (by decide) (by decide) (by decide)).1,
   (((loadPackage_env_override sampleNodeWithOverride "/app" "atlas-cms-vue").2.2.2.2
      "^1.2.0" "packages/AtlasCMS-Vue" (by decide) (by decide) (by decide)).2
      { resources := some [⟨"js", some "resources/admin/js/app.js", "admin"⟩],
        aliases := some [ ("@admin", some "resources/admin"),
                          ("@shared", some "/opt/shared") ] } rfl).1
      { inputs := [], aliases := [] } _ rfl,
   (((loadPackage_env_override sampleNodeWithOverride "/app" "atlas-cms-vue").2.2.2.2
      "^1.2.0" "packages/AtlasCMS-Vue" (by decide) (by decide) (by decide)).2
      { resources := some [⟨"js", some "resources/admin/js/app.js", "admin"⟩],
        aliases := some [ ("@admin", some "resources/admin"),
                          ("@shared", some "/opt/shared") ] } rfl).2.2.1
      { inputs := [], aliases := [] } _ rfl rfl (by decide) "@admin" "resources/admin"
      (by simp) (by decide) (by decide)⟩

end Atlas
